import Mathlib

/-!
Verification development for the graby-ts content-extraction engine.

The TypeScript sources are embedded shallowly:
  * the DOM is a tree of nodes; element nodes carry a numeric `id` that
    models JavaScript object identity (node references), since the engine
    manipulates nodes through references returned by the XPath facade;
  * a *document* is the list of top-level nodes (the children of the
    `#document` node, which itself has no parent and is never matched);
  * external collaborators (HTML parser, XPath/CSS evaluator, Readability,
    DOMPurify, JSON parser, URL resolver, chardet, iconv) are oracles passed
    as function arguments; where the source wraps a collaborator call in
    `try`/`catch`, the oracle returns `Except` and the catch is explicit;
  * JavaScript truthiness of nullable strings is modelled explicitly.
-/

namespace GrabyTs

/-- JS truthiness of a `string | null` value: `null` and `""` are falsy. -/
def jsTruthy : Option String → Bool
  | none => false
  | some s => s ≠ ""

/-- `s || null` for a JS string: the empty string collapses to `null`. -/
def jsOrNull (s : String) : Option String :=
  if s = "" then none else some s

/-- `a || b` for JS nullable strings ("" and null fall through). -/
def jsOr (a b : Option String) : Option String :=
  if jsTruthy a then a else b

/- Named characters, used instead of escaped character literals. -/

def spaceChar : Char := Char.ofNat 32
def tabChar : Char := Char.ofNat 9
def lfChar : Char := Char.ofNat 10
def crChar : Char := Char.ofNat 13
def vtChar : Char := Char.ofNat 11
def ffChar : Char := Char.ofNat 12
def dquoteChar : Char := Char.ofNat 34
def squoteChar : Char := Char.ofNat 39
def replacementChar : Char := Char.ofNat 65533

/-- Whitespace class used by the JS regex `\s` (ASCII part). -/
def isWsChar (c : Char) : Bool :=
  c = spaceChar || c = tabChar || c = lfChar || c = crChar || c = vtChar || c = ffChar

/-- Case-sensitive "starts with" on character lists. -/
def startsWithChars : List Char → List Char → Bool
  | [], _ => true
  | _ :: _, [] => false
  | p :: ps, c :: cs => p = c && startsWithChars ps cs

/-- JS `String.prototype.endsWith`, modelled on character lists. -/
def strEndsWith (s post : String) : Bool :=
  startsWithChars post.data.reverse s.data.reverse

/-- Case-insensitive "starts with" on character lists (regex `/i` flag). -/
def startsWithCI : List Char → List Char → Bool
  | [], _ => true
  | _ :: _, [] => false
  | p :: ps, c :: cs => p.toLower = c.toLower && startsWithCI ps cs

/-- Case-sensitive substring test (JS `String.prototype.includes`). -/
def hasSubChars (pat : List Char) : List Char → Bool
  | [] => startsWithChars pat []
  | c :: cs => startsWithChars pat (c :: cs) || hasSubChars pat cs

/-- JS `String.prototype.toLowerCase` (ASCII model). -/
def jsToLower (s : String) : String :=
  String.mk (s.data.map Char.toLower)

/-- JS `String.prototype.trim` (ASCII whitespace model). -/
def jsTrim (s : String) : String :=
  String.mk (((s.data.dropWhile (fun c => isWsChar c)).reverse.dropWhile
    (fun c => isWsChar c)).reverse)

/- ===== Attribute lists (DOM `getAttribute`/`setAttribute`/`removeAttribute`) ===== -/

/-- `getAttribute`: first binding of the name, `null` when absent. -/
def getAttr (attrs : List (String × String)) (name : String) : Option String :=
  match attrs with
  | [] => none
  | (k, v) :: rest => if k = name then some v else getAttr rest name

/-- `hasAttribute`. -/
def hasAttr (attrs : List (String × String)) (name : String) : Bool :=
  (getAttr attrs name).isSome

/-- `setAttribute`: overwrite in place or append. -/
def setAttr (attrs : List (String × String)) (name v : String) :
    List (String × String) :=
  match attrs with
  | [] => [(name, v)]
  | (k, w) :: rest =>
    if k = name then (k, v) :: rest else (k, w) :: setAttr rest name v

/-- `removeAttribute`. -/
def removeAttr (attrs : List (String × String)) (name : String) :
    List (String × String) :=
  attrs.filter (fun kv => kv.1 ≠ name)

/- ===== DOM node model ===== -/

/-- A DOM node: text, or an element with an identity, tag, attributes and
children.  The `id` field models the JavaScript object reference. -/
inductive DNode where
  | text (s : String)
  | elem (id : Nat) (tag : String) (attrs : List (String × String))
      (children : List DNode)
deriving Repr

/-- A document is the list of children of the `#document` node. -/
abbrev Doc := List DNode

def DNode.isElem : DNode → Bool
  | .text _ => false
  | .elem _ _ _ _ => true

def DNode.idOf : DNode → Option Nat
  | .text _ => none
  | .elem i _ _ _ => some i

def DNode.tagOf : DNode → Option String
  | .text _ => none
  | .elem _ t _ _ => some t

def DNode.attrsOf : DNode → List (String × String)
  | .text _ => []
  | .elem _ _ a _ => a

def DNode.childrenOf : DNode → List DNode
  | .text _ => []
  | .elem _ _ _ cs => cs

mutual

/-- `Node.textContent`: concatenation of all descendant text. -/
def nodeText : DNode → String
  | .text s => s
  | .elem _ _ _ cs => listText cs

def listText : List DNode → String
  | [] => ""
  | c :: cs => nodeText c ++ listText cs

end

mutual

/-- Does an element with the given reference occur in the subtree? -/
def idOccurs (k : Nat) : DNode → Bool
  | .text _ => false
  | .elem i _ _ cs => i = k || idOccursList k cs

def idOccursList (k : Nat) : List DNode → Bool
  | [] => false
  | c :: cs => idOccurs k c || idOccursList k cs

end

mutual

/-- `parentNode.removeChild(node)` over a set of node references:
every element whose reference is in `ids` is detached from its parent. -/
def removeIds (ids : List Nat) : DNode → DNode
  | .text s => .text s
  | .elem i t a cs => .elem i t a (removeIdsList ids cs)

def removeIdsList (ids : List Nat) : List DNode → List DNode
  | [] => []
  | .text s :: cs => .text s :: removeIdsList ids cs
  | .elem i t a gs :: cs =>
    if i ∈ ids then removeIdsList ids cs
    else removeIds ids (.elem i t a gs) :: removeIdsList ids cs

end

mutual

/-- `parentNode.replaceChild(mk old, old)` for the element referenced `k`. -/
def replaceById (k : Nat) (mk : DNode → DNode) : DNode → DNode
  | .text s => .text s
  | .elem i t a cs => .elem i t a (replaceByIdList k mk cs)

def replaceByIdList (k : Nat) (mk : DNode → DNode) : List DNode → List DNode
  | [] => []
  | .text s :: cs => .text s :: replaceByIdList k mk cs
  | .elem i t a gs :: cs =>
    if i = k then mk (.elem i t a gs) :: replaceByIdList k mk cs
    else replaceById k mk (.elem i t a gs) :: replaceByIdList k mk cs

end

mutual

/-- Dereference a node reference (pre-order, first occurrence). -/
def findById (k : Nat) : DNode → Option DNode
  | .text _ => none
  | .elem i t a cs =>
    if i = k then some (.elem i t a cs) else findByIdList k cs

def findByIdList (k : Nat) : List DNode → Option DNode
  | [] => none
  | c :: cs =>
    match findById k c with
    | some n => some n
    | none => findByIdList k cs

end

mutual

/-- Largest element id in a subtree (used to mint fresh references). -/
def maxId : DNode → Nat
  | .text _ => 0
  | .elem i _ _ cs => max i (maxIdList cs)

def maxIdList : List DNode → Nat
  | [] => 0
  | c :: cs => max (maxId c) (maxIdList cs)

end

mutual

/-- `querySelector`-style first element (pre-order) satisfying `p`. -/
def findElemP (p : DNode → Bool) : DNode → Option DNode
  | .text _ => none
  | .elem i t a cs =>
    if p (.elem i t a cs) then some (.elem i t a cs)
    else findElemPList p cs

def findElemPList (p : DNode → Bool) : List DNode → Option DNode
  | [] => none
  | c :: cs =>
    match findElemP p c with
    | some n => some n
    | none => findElemPList p cs

end

mutual

/-- `querySelectorAll`-style collection (document order) of elements
satisfying `p`. -/
def collectElems (p : DNode → Bool) : DNode → List DNode
  | .text _ => []
  | .elem i t a cs =>
    (if p (.elem i t a cs) then [DNode.elem i t a cs] else []) ++
      collectElemsList p cs

def collectElemsList (p : DNode → Bool) : List DNode → List DNode
  | [] => []
  | c :: cs => collectElems p c ++ collectElemsList p cs

end

mutual

/-- In-place attribute rewriting of every element (models iterating a
`querySelectorAll` result and mutating attributes of each hit; the
rewriting function receives the tag so it can restrict itself). -/
def mapAttrs (f : String → List (String × String) → List (String × String)) :
    DNode → DNode
  | .text s => .text s
  | .elem i t a cs => .elem i t (f t a) (mapAttrsList f cs)

def mapAttrsList
    (f : String → List (String × String) → List (String × String)) :
    List DNode → List DNode
  | [] => []
  | c :: cs => mapAttrs f c :: mapAttrsList f cs

end

mutual

/-- Structural membership of a node value in a subtree. -/
def nodeOccurs (n : DNode) : DNode → Prop
  | .text s => DNode.text s = n
  | .elem i t a cs => DNode.elem i t a cs = n ∨ nodeOccursList n cs

def nodeOccursList (n : DNode) : List DNode → Prop
  | [] => False
  | c :: cs => nodeOccurs n c ∨ nodeOccursList n cs

end

mutual

/-- A minimal serializer standing in for linkedom's `innerHTML` getter
(collaborator behaviour; attribute escaping is not modelled). -/
def serializeNode : DNode → String
  | .text s => s
  | .elem _ t a cs =>
    "<" ++ t ++ (serializeAttrs a) ++ ">" ++ serializeList cs ++ "</" ++ t ++ ">"

def serializeAttrs : List (String × String) → String
  | [] => ""
  | (k, v) :: rest =>
    " " ++ k ++ "=" ++ String.mk [dquoteChar] ++ v ++ String.mk [dquoteChar] ++
      serializeAttrs rest

def serializeList : List DNode → String
  | [] => ""
  | c :: cs => serializeNode c ++ serializeList cs

end

/- ===== EncodingUtils (part_009) ===== -/

/-- Maximum number of bytes to analyze for charset detection. -/
def MAX_CHARSET_DETECTION_SIZE : Nat := 50000

/-- The mistake-correction table of `fixCommonEncodingMistakes`. -/
def encodingMistakes : List (String × String) :=
  [("iso-8850-1", "iso-8859-1"),
   ("windows", "windows-1252"),
   ("win", "windows-1252"),
   ("cp1251", "windows-1251"),
   ("cp1252", "windows-1252"),
   ("latin1", "iso-8859-1"),
   ("latin-1", "iso-8859-1"),
   ("unicode", "utf-8"),
   ("utf", "utf-8"),
   ("none", "utf-8")]

/-- `EncodingUtils.fixCommonEncodingMistakes`. -/
def fixCommonEncodingMistakes (encoding : String) : String :=
  let e := jsTrim (jsToLower encoding)
  ((encodingMistakes.lookup e).getD e)

/-- Scan for the regex `charset=["']?([^"';]+)` (case-insensitive), trying
every position left to right like the JS regex engine. -/
def charsetScan : List Char → Option String
  | [] => none
  | c :: rest =>
    if startsWithCI ("charset=".data) (c :: rest) then
      let after := (c :: rest).drop 8
      let after2 :=
        match after with
        | q :: t => if q = dquoteChar || q = squoteChar then t else q :: t
        | [] => []
      let v := after2.takeWhile
        (fun ch => ch != dquoteChar && ch != squoteChar && ch != ';')
      if v.isEmpty then charsetScan rest else some (String.mk v)
    else charsetScan rest

/-- `headers['content-type'] || headers['Content-Type'] || ''`. -/
def headerContentType (headers : List (String × String)) : String :=
  (jsOr (headers.lookup "content-type") (headers.lookup "Content-Type")).getD ""

/-- `EncodingUtils.detectEncodingFromHeaders`.  The Content-Language branch
of the source returns null in both of its paths and cannot change the
result, so it is not represented. -/
def detectEncodingFromHeaders (headers : List (String × String)) :
    Option String :=
  let contentType := headerContentType headers
  let encoding : Option String :=
    if contentType ≠ "" ∧ hasSubChars ("charset=".data) contentType.data then
      (charsetScan contentType.data).map jsTrim
    else none
  match encoding with
  | some e => if e = "" then none else some (fixCommonEncodingMistakes e)
  | none => none

/- Character-level matchers for the declaration-scanning regexes of
`detectEncodingFromHtml`.  Each `...At` function attempts a match anchored
at the start of its argument; `scanFor` tries every position left to right,
which models the regex engine's search (for the global meta-tag loop this
also tries positions inside an earlier match, a divergence only possible
for `<meta` tags nested inside another tag's attribute text). -/

def expectCI (pat l : List Char) : Option (List Char) :=
  if startsWithCI pat l then some (l.drop pat.length) else none

/-- `\s+` (greedy). -/
def ws1 : List Char → Option (List Char)
  | c :: rest =>
    if isWsChar c then some (rest.dropWhile (fun x => isWsChar x)) else none
  | [] => none

/-- `\s*` (greedy). -/
def wsMany (l : List Char) : List Char := l.dropWhile (fun x => isWsChar x)

/-- A quoted chunk `"..."` or `'...'`; returns (contents, remainder). -/
def quotedChunk : List Char → Option (List Char × List Char)
  | q :: rest =>
    if q = dquoteChar || q = squoteChar then
      let inner := rest.takeWhile (fun x => x != q)
      match rest.drop inner.length with
      | q2 :: rest2 => if q2 = q then some (inner, rest2) else none
      | [] => none
    else none
  | [] => none

/-- An optional opening quote `["']?`. -/
def optQuote (l : List Char) : List Char :=
  match l with
  | q :: t => if q = dquoteChar || q = squoteChar then t else l
  | [] => l

def scanFor (tryAt : List Char → Option String) : List Char → Option String
  | [] => none
  | c :: rest =>
    match tryAt (c :: rest) with
    | some r => some r
    | none => scanFor tryAt rest

def scanForB (tryAt : List Char → Bool) : List Char → Bool
  | [] => false
  | c :: rest => tryAt (c :: rest) || scanForB tryAt rest

/-- `^<\?xml\s+version=(?:"[^"]*"|'[^']*')\s+encoding=("[^"]*"|'[^']*')/i`;
the capture keeps its quotes and the source then strips quote characters. -/
def xmlDeclMatch (l : List Char) : Option String := do
  let l1 ← expectCI ("<?xml".data) l
  let l2 ← ws1 l1
  let l3 ← expectCI ("version=".data) l2
  let (_, l4) ← quotedChunk l3
  let l5 ← ws1 l4
  let l6 ← expectCI ("encoding=".data) l5
  let (inner, _) ← quotedChunk l6
  return String.mk
    (inner.filter (fun c => c != dquoteChar && c != squoteChar))

/-- `<meta\s+http-equiv\s*=\s*["']?Content-Type["']?` at one position. -/
def metaHttpEquivAt (l : List Char) : Option (List Char) := do
  let l1 ← expectCI ("<meta".data) l
  let l2 ← ws1 l1
  let l3 ← expectCI ("http-equiv".data) l2
  let l4 ← expectCI ("=".data) (wsMany l3)
  let l6 := optQuote (wsMany l4)
  let l7 ← expectCI ("content-type".data) l6
  return optQuote l7

/-- The full meta http-equiv charset regex
`...Content-Type["']?\s+content\s*=\s*["'][^;]+;\s*charset=["']?([^;"'>]+)`
at one position. -/
def metaHttpEquivCharsetAt (l : List Char) : Option String := do
  let l8 ← metaHttpEquivAt l
  let l9 ← ws1 l8
  let l10 ← expectCI ("content".data) l9
  let l11 ← expectCI ("=".data) (wsMany l10)
  match wsMany l11 with
  | q :: rest =>
    if q = dquoteChar || q = squoteChar then
      let body := rest.takeWhile (fun c => c != ';')
      if body.isEmpty then none
      else
        match rest.drop body.length with
        | _semi :: rest2 => do
          let rest4 ← expectCI ("charset=".data) (wsMany rest2)
          let cap := (optQuote rest4).takeWhile
            (fun c => c != ';' && c != dquoteChar && c != squoteChar && c != '>')
          if cap.isEmpty then none else some (String.mk cap)
        | [] => none
    else none
  | [] => none

/-- `<meta\s+charset\s*=\s*["']?([^"'>\s]+)/i` at one position. -/
def metaCharsetAt (l : List Char) : Option String := do
  let l1 ← expectCI ("<meta".data) l
  let l2 ← ws1 l1
  let l3 ← expectCI ("charset".data) l2
  let l4 ← expectCI ("=".data) (wsMany l3)
  let cap := (optQuote (wsMany l4)).takeWhile
    (fun c => c != dquoteChar && c != squoteChar && c != '>' && !(isWsChar c))
  if cap.isEmpty then none else some (String.mk cap)

/-- `<meta\s+([^>]+)>` at one position; returns the whole matched tag. -/
def metaTagAt (l : List Char) : Option (List Char) := do
  let l1 ← expectCI ("<meta".data) l
  match l1 with
  | c :: rest =>
    if isWsChar c then
      let inner := rest.takeWhile (fun x => x != '>')
      if inner.isEmpty then none
      else
        match rest.drop inner.length with
        | _gt :: _ => some (("<meta".data) ++ [c] ++ inner ++ ['>'])
        | [] => none
    else none
  | [] => none

/-- The check regex `charset\s*=\s*["']?([^"']+)/i` at one position. -/
def charsetCheckAt (l : List Char) : Bool :=
  match expectCI ("charset".data) l with
  | none => false
  | some l1 =>
    match expectCI ("=".data) (wsMany l1) with
    | none => false
    | some l2 =>
      !((optQuote (wsMany l2)).takeWhile
        (fun c => c != dquoteChar && c != squoteChar)).isEmpty

/-- The extraction regex `charset\s*=\s*["']?([^"'>\s]+)/i` at one
position. -/
def charsetExtractAt (l : List Char) : Option String := do
  let l1 ← expectCI ("charset".data) l
  let l2 ← expectCI ("=".data) (wsMany l1)
  let cap := (optQuote (wsMany l2)).takeWhile
    (fun c => c != dquoteChar && c != squoteChar && c != '>' && !(isWsChar c))
  if cap.isEmpty then none else some (String.mk cap)

/-- Per-tag body of the `metaTags` loop: if the tag passes the check regex,
return the extraction regex's capture. -/
def metaTagsScanOne (tag : List Char) : Option String :=
  if scanForB charsetCheckAt tag then scanFor charsetExtractAt tag else none

/-- The whole content-declaration scan of `detectEncodingFromHtml`:
XML prolog, then meta http-equiv, then meta charset, then any meta tag.
Returns the declared encoding or `none` when nothing is found (in which
case the source leaves its `encoding` variable unchanged). -/
def scanCharsetDecl (head : List Char) : Option String :=
  match xmlDeclMatch head with
  | some e => some e
  | none =>
    if scanForB (fun l => (metaHttpEquivAt l).isSome) head then
      scanFor metaHttpEquivCharsetAt head
    else
      match scanFor metaCharsetAt head with
      | some e => some e
      | none =>
        scanFor (fun l => (metaTagAt l).bind metaTagsScanOne) head

/-- The byte window analyzed by `detectEncodingFromHtml`. -/
def sampleOf (bytes : List Nat) : List Nat :=
  if bytes.length > MAX_CHARSET_DETECTION_SIZE then
    bytes.take MAX_CHARSET_DETECTION_SIZE
  else bytes

/-- `iconv.decode(buf, 'ascii')`: high bytes become replacement chars. -/
def asciiDecode (bytes : List Nat) : List Char :=
  bytes.map (fun b => if b ≤ 127 then Char.ofNat b else replacementChar)

/-- `EncodingUtils.detectEncodingFromHtml`.  The `chardet` oracle's `none`
covers both "no detection" and a caught detector exception. -/
def detectEncodingFromHtml (chardet : List Nat → Option String)
    (bytes : List Nat) : String :=
  let sampleBytes := sampleOf bytes
  let chardetResult : Option String := (chardet sampleBytes).map jsToLower
  let encoding : Option String :=
    if chardetResult = none ∨ chardetResult = some "ascii" then
      match scanCharsetDecl (asciiDecode sampleBytes) with
      | some e => some e
      | none => chardetResult
    else chardetResult
  match encoding with
  | none => "utf-8"
  | some e => if e = "ascii" then "utf-8" else fixCommonEncodingMistakes e

/-- The C1-control replacement table of `handleSpecialChars`. -/
def specialChars : List (Nat × String) :=
  [(130, "&sbquo;"), (131, "&fnof;"), (132, "&bdquo;"), (133, "&hellip;"),
   (134, "&dagger;"), (135, "&Dagger;"), (136, "&circ;"), (137, "&permil;"),
   (138, "&Scaron;"), (139, "&lsaquo;"), (140, "&OElig;"), (145, "&lsquo;"),
   (146, "&rsquo;"), (147, "&ldquo;"), (148, "&rdquo;"), (149, "&bull;"),
   (150, "&ndash;"), (151, "&mdash;"), (152, "&tilde;"), (153, "&trade;"),
   (154, "&scaron;"), (155, "&rsaquo;"), (156, "&oelig;"), (159, "&Yuml;")]

/-- `EncodingUtils.handleSpecialChars`. -/
def handleSpecialChars (text : String) (sourceEncoding : String) : String :=
  if jsToLower sourceEncoding = "iso-8859-1" then
    specialChars.foldl
      (fun acc ce => acc.replace (String.mk [Char.ofNat ce.1]) ce.2) text
  else text

/-- The body of `EncodingUtils.convertToUtf8` after the mistake-correction
step.  The `iconvDecode` oracle is total, so the decode `try`/`catch`'s
fallback branch is not represented separately. -/
def convertToUtf8Fixed (iconvDecode : List Nat → String → String)
    (iconvExists : String → Bool) (bytes : List Nat) (encoding : String) :
    String :=
  if jsToLower encoding = "utf-8" ∨ jsToLower encoding = "utf8" then
    iconvDecode bytes "utf8"
  else if !(iconvExists encoding) then iconvDecode bytes "utf8"
  else handleSpecialChars (iconvDecode bytes encoding) encoding

/-- `EncodingUtils.convertToUtf8`: first fix common encoding mistakes,
then transcode. -/
def convertToUtf8 (iconvDecode : List Nat → String → String)
    (iconvExists : String → Bool) (bytes : List Nat) (encoding : String) :
    String :=
  convertToUtf8Fixed iconvDecode iconvExists bytes
    (fixCommonEncodingMistakes encoding)

/- ===== HttpClient.fetch: encoding resolution (part_010) ===== -/

structure HttpEncodingOptions where
  autoDetectEncoding : Bool := true
  forceEncoding : Option String := none

/-- The `detectedEncoding` computation of `HttpClient.fetch`
(part_010 lines 80-99). -/
def fetchDetectedEncoding (opts : HttpEncodingOptions)
    (headers : List (String × String)) (chardet : List Nat → Option String)
    (rawBytes : List Nat) : String :=
  if jsTruthy opts.forceEncoding then opts.forceEncoding.getD ""
  else if opts.autoDetectEncoding then
    match detectEncodingFromHeaders headers with
    | some e => e
    | none => detectEncodingFromHtml chardet rawBytes
  else "utf-8"

/-- The `html` text produced by `HttpClient.fetch` (line 102). -/
def fetchHtmlText (opts : HttpEncodingOptions)
    (headers : List (String × String)) (chardet : List Nat → Option String)
    (iconvDecode : List Nat → String → String) (iconvExists : String → Bool)
    (rawBytes : List Nat) : String :=
  convertToUtf8 iconvDecode iconvExists rawBytes
    (fetchDetectedEncoding opts headers chardet rawBytes)

/- ===== ContentExtractor (src/lib/ContentExtractor.ts) ===== -/

/-- Site configuration (interfaces.ts / graby-ts-site-config).  Absent rule
lists behave exactly like empty ones in the source, so plain lists are
used; `if_page_contains` is the per-kind map from pattern to gate
expression. -/
structure SiteConfig where
  title : List String := []
  body : List String := []
  strip : List String := []
  native_ad_clue : List String := []
  next_page_link : List String := []
  single_page_link : List String := []
  wrap_in : List (String × String) := []
  find_string : List String := []
  replace_string : List String := []
  if_page_contains_single : List (String × String) := []
  if_page_contains_next : List (String × String) := []

/-- The extractor's mutable per-call state (fields of `ContentExtractor`
reset by `reset()`). -/
structure ExtractionState where
  title : Option String := none
  content : Option DNode := none
  authors : List String := []
  date : Option String := none
  language : Option String := none
  image : Option String := none
  isNativeAd : Bool := false
  nextPageUrl : Option String := none
  singlePageUrl : Option String := none
  success : Bool := false

/-- `ExtractionResult` (interfaces.ts), without the orchestration-level
`originalUrl`/`finalUrl`/`status` fields populated by the caller. -/
structure ExtractionResult where
  title : String
  html : String
  authors : List String
  date : Option String
  language : Option String
  image : Option String
  nextPageUrl : Option String
  isNativeAd : Bool
  success : Bool
deriving Repr, DecidableEq

/-- The `author` field of a JSON-LD block: a string or an object with an
optional `name`. -/
inductive JsonAuthor where
  | jstr (s : String)
  | jobj (name : Option String)

/-- The fields of a parsed JSON-LD block read by `extractJsonLd`. -/
structure JsonLd where
  atType : Option String := none
  headline : Option String := none
  datePublished : Option String := none
  author : Option JsonAuthor := none

/-- A Readability result; `content` is the article HTML already parsed
into top-level nodes (the source immediately reparses the HTML string). -/
structure ReadabilityArticle where
  title : Option String := none
  content : List DNode := []
  publishedTime : Option String := none
  byline : Option String := none

/-- External collaborators.  `xeval` is `XPathHelper.evaluateXPath`
returning node references; an `Except.error` models a thrown exception at
the call site. -/
structure Oracles where
  parse : String → Doc
  xeval : String → Doc → Except String (List Nat)
  jsonParse : String → Except String JsonLd
  readability : Doc → Except String (Option ReadabilityArticle)
  resolveUrl : String → String → Option String
  purify : List DNode → Except String (List DNode)
  formatDate : String → Except String String

structure ContentExtractorOptions where
  enableXss : Bool := true

/-- `ContentExtractor.processStringReplacements`: pairwise literal global
replacement (the find string is regex-escaped in the source, hence
literal); a missing replacement defaults to the empty string. -/
def replacePairs : String → List String → List String → String
  | s, [], _ => s
  | s, f :: fs, rs => replacePairs (s.replace f ((rs.head?).getD "")) fs (rs.drop 1)

def processStringReplacements (html : String) (cfg : SiteConfig) : String :=
  replacePairs html cfg.find_string cfg.replace_string

/-- `meta[property="og:title"]`-style selector predicate. -/
def isMetaWithProp (propName propVal : String) (n : DNode) : Bool :=
  n.tagOf == some "meta" && getAttr n.attrsOf propName == some propVal

/-- linkedom `document.documentElement`: the root element. -/
def documentElement (doc : Doc) : Option DNode := doc.find? DNode.isElem

/-- linkedom `document.title`: text of the `<title>` element, else `""`. -/
def documentTitle (doc : Doc) : String :=
  match findElemPList (fun n => n.tagOf == some "title") doc with
  | some n => nodeText n
  | none => ""

/-- `ContentExtractor.extractBasicMetadata`. -/
def extractBasicMetadata (doc : Doc) (st : ExtractionState) :
    ExtractionState :=
  let st1 :=
    match documentElement doc with
    | some h =>
      if hasAttr h.attrsOf "lang" then
        { st with language := getAttr h.attrsOf "lang" }
      else st
    | none => st
  if !(jsTruthy st1.title) && documentTitle doc ≠ "" then
    { st1 with title := some (documentTitle doc) }
  else st1

/-- `ContentExtractor.extractOpenGraph`. -/
def extractOpenGraph (doc : Doc) (st : ExtractionState) : ExtractionState :=
  let st1 :=
    match findElemPList (isMetaWithProp "property" "og:title") doc with
    | some n =>
      if jsTruthy (getAttr n.attrsOf "content") then
        { st with title := getAttr n.attrsOf "content" }
      else st
    | none => st
  let st2 :=
    match findElemPList (isMetaWithProp "property" "og:image") doc with
    | some n => { st1 with image := getAttr n.attrsOf "content" }
    | none => st1
  let st3 :=
    match findElemPList (isMetaWithProp "property" "og:locale") doc with
    | some n =>
      if jsTruthy (getAttr n.attrsOf "content") then
        { st2 with language := getAttr n.attrsOf "content" }
      else st2
    | none => st2
  match findElemPList (isMetaWithProp "property" "article:published_time") doc with
  | some n => { st3 with date := getAttr n.attrsOf "content" }
  | none => st3

/-- Per-script body of `ContentExtractor.extractJsonLd`. -/
def extractJsonLdOne (data : JsonLd) (st : ExtractionState) :
    ExtractionState :=
  if data.atType == some "Article" || data.atType == some "NewsArticle" then
    let st1 :=
      if jsTruthy data.headline then { st with title := data.headline } else st
    let st2 :=
      if jsTruthy data.datePublished then { st1 with date := data.datePublished }
      else st1
    match data.author with
    | some (.jstr s) =>
      if s ≠ "" then { st2 with authors := st2.authors ++ [s] } else st2
    | some (.jobj name) =>
      if jsTruthy name then { st2 with authors := st2.authors ++ [name.getD ""] }
      else st2
    | none => st2
  else st

/-- `ContentExtractor.extractJsonLd`: every
`script[type="application/ld+json"]`, JSON parse errors ignored. -/
def extractJsonLd (O : Oracles) (doc : Doc) (st : ExtractionState) :
    ExtractionState :=
  let scripts := collectElemsList
    (fun n => n.tagOf == some "script" &&
      getAttr n.attrsOf "type" == some "application/ld+json") doc
  scripts.foldl
    (fun s scr =>
      let tc := nodeText scr
      match O.jsonParse (if tc = "" then "\x7b\x7d" else tc) with
      | .ok data => extractJsonLdOne data s
      | .error _ => s) st

/-- `ContentExtractor.extractMetadata`: basic, then OpenGraph, then
JSON-LD. -/
def extractMetadata (O : Oracles) (doc : Doc) (st : ExtractionState) :
    ExtractionState :=
  extractJsonLd O doc (extractOpenGraph doc (extractBasicMetadata doc st))

/-- The per-node link extraction of `extractNextPageUrl` /
`extractSinglePageUrl`: `href` attribute, else the `value` property
(modelled as the `value` attribute), else trimmed text content
(`|| null`). -/
def linkFromNode (n : DNode) : Option String :=
  if hasAttr n.attrsOf "href" then getAttr n.attrsOf "href"
  else if (getAttr n.attrsOf "value").isSome then getAttr n.attrsOf "value"
  else jsOrNull (jsTrim (nodeText n))

/-- The shared pattern loop of `extractNextPageUrl` and
`extractSinglePageUrl` (the two methods are textually identical in the
source).  `acc` is the current value of the instance field being
assigned; a pattern whose evaluation throws is skipped (caught), a
falsy assignment lets the loop continue with the assignment kept. -/
def extractLinkLoop (O : Oracles) (doc : Doc)
    (conds : List (String × String)) :
    List String → Option String → Option String
  | [], acc => acc
  | pat :: rest, acc =>
    let condFail : Bool :=
      match conds.lookup pat with
      | some cond =>
        if cond = "" then false
        else
          match O.xeval cond doc with
          | .error _ => true
          | .ok [] => true
          | .ok (_ :: _) => false
      | none => false
    if condFail then extractLinkLoop O doc conds rest acc
    else
      match O.xeval pat doc with
      | .error _ => extractLinkLoop O doc conds rest acc
      | .ok [] => extractLinkLoop O doc conds rest acc
      | .ok (k :: _) =>
        match findByIdList k doc with
        | none => extractLinkLoop O doc conds rest acc
        | some n =>
          let newAcc := linkFromNode n
          if jsTruthy newAcc then newAcc
          else extractLinkLoop O doc conds rest newAcc

/-- `ContentExtractor.extractNextPageUrl`. -/
def extractNextPageUrl (O : Oracles) (doc : Doc) (cfg : SiteConfig) :
    Option String :=
  extractLinkLoop O doc cfg.if_page_contains_next cfg.next_page_link none

/-- `ContentExtractor.extractSinglePageUrl`. -/
def extractSinglePageUrl (O : Oracles) (doc : Doc) (cfg : SiteConfig) :
    Option String :=
  extractLinkLoop O doc cfg.if_page_contains_single cfg.single_page_link none

/-- `ContentExtractor.acceptedWrapInTags`. -/
def acceptedWrapInTags : List String := ["blockquote", "p", "div"]

/-- The title loop of `applySiteConfig`: first expression with at least
one matched node wins; its first node's `textContent || null` overwrites
the title unconditionally. -/
def applyTitleRules (O : Oracles) (doc : Doc) :
    List String → ExtractionState → ExtractionState
  | [], st => st
  | pat :: rest, st =>
    match O.xeval pat doc with
    | .error _ => applyTitleRules O doc rest st
    | .ok [] => applyTitleRules O doc rest st
    | .ok (k :: _) =>
      match findByIdList k doc with
      | some n => { st with title := jsOrNull (nodeText n) }
      | none => applyTitleRules O doc rest st

/-- The native-ad loop of `applySiteConfig`. -/
def applyNativeAdRules (O : Oracles) (doc : Doc) :
    List String → ExtractionState → ExtractionState
  | [], st => st
  | pat :: rest, st =>
    match O.xeval pat doc with
    | .error _ => applyNativeAdRules O doc rest st
    | .ok [] => applyNativeAdRules O doc rest st
    | .ok (_ :: _) => { st with isNativeAd := true }

/-- One replacement of `ContentExtractor.wrapElements`: the matched node
is replaced in place by a fresh element of the wrap tag whose content is
the node's serialized markup (the serialize/parse round trip is modelled
as the identity on the node). -/
def wrapOne (tag : String) (d : Doc) (k : Nat) : Doc :=
  match findByIdList k d with
  | none => d
  | some _ =>
    replaceByIdList k (fun old => DNode.elem (maxIdList d + 1) tag [] [old]) d

/-- `ContentExtractor.wrapElements`. -/
def wrapElements (d : Doc) (ks : List Nat) (tag : String) : Doc :=
  ks.foldl (fun acc k => wrapOne tag acc k) d

/-- One `wrap_in` entry: tags outside the whitelist are skipped with a
console warning (logging is outside the model); evaluation errors are
caught. -/
def applyWrapEntry (O : Oracles) (d : Doc) (entry : String × String) : Doc :=
  if entry.1 ∉ acceptedWrapInTags then d
  else
    match O.xeval entry.2 d with
    | .error _ => d
    | .ok ks => if ks.isEmpty then d else wrapElements d ks entry.1

/-- The `wrap_in` loop of `applySiteConfig`. -/
def applyWrapInRules (O : Oracles) (entries : List (String × String))
    (d : Doc) : Doc :=
  entries.foldl (fun acc e => applyWrapEntry O acc e) d

/-- The strip loop of `applySiteConfig`: every matched node is detached
from its parent; evaluation errors are caught per expression. -/
def applyStripRules (O : Oracles) (rules : List String) (d : Doc) : Doc :=
  rules.foldl
    (fun acc pat =>
      match O.xeval pat acc with
      | .error _ => acc
      | .ok ks => removeIdsList ks acc) d

/-- The body loop of `applySiteConfig`: first expression with at least one
node wins; a fresh `div` container receives a deep clone of each matched
node. -/
def applyBodyRules (O : Oracles) (d : Doc) : List String → Option DNode
  | [] => none
  | pat :: rest =>
    match O.xeval pat d with
    | .error _ => applyBodyRules O d rest
    | .ok [] => applyBodyRules O d rest
    | .ok (k :: ks) =>
      some (DNode.elem (maxIdList d + 1) "div" []
        ((k :: ks).filterMap (fun j => findByIdList j d)))

/-- `ContentExtractor.applySiteConfig`: title, native-ad clue, wrap_in,
strip, body — in that order; returns the updated state and the live
(mutated) document. -/
def applySiteConfig (O : Oracles) (cfg : SiteConfig) (doc : Doc)
    (st : ExtractionState) : ExtractionState × Doc :=
  let st1 := applyTitleRules O doc cfg.title st
  let st2 := applyNativeAdRules O doc cfg.native_ad_clue st1
  let doc1 := applyWrapInRules O cfg.wrap_in doc
  let doc2 := applyStripRules O cfg.strip doc1
  let st3 :=
    match applyBodyRules O doc2 cfg.body with
    | some c => { st2 with content := some c }
    | none => st2
  (st3, doc2)

/-- `article.title || null` and friends. -/
def truthyOrNull (o : Option String) : Option String :=
  match o with
  | some s => if s = "" then none else some s
  | none => none

/-- `ContentExtractor.applyReadability`: fills only still-unset fields;
a thrown Readability error is caught. -/
def applyReadability (result : Except String (Option ReadabilityArticle))
    (st : ExtractionState) : ExtractionState :=
  match result with
  | .error _ => st
  | .ok none => st
  | .ok (some article) =>
    let st1 :=
      if !(jsTruthy st.title) then { st with title := truthyOrNull article.title }
      else st
    let st2 :=
      if st1.content.isNone then
        { st1 with content := some (DNode.elem 0 "div" [] article.content),
                   success := true }
      else st1
    let st3 :=
      if !(jsTruthy st2.date) && jsTruthy article.publishedTime then
        { st2 with date := article.publishedTime }
      else st2
    if st3.authors.isEmpty && jsTruthy article.byline then
      { st3 with authors := [article.byline.getD ""] }
    else st3

/- ===== DomUtils (src/lib/DomUtils.ts) ===== -/

/-- `DomUtils.resolveUrl`: absolute, protocol-relative, in-page anchor and
`javascript:` URLs are returned untouched; otherwise the URL is resolved
against the base by the url-parse collaborator (`none` models a throw,
caught and returning the input). -/
def resolveUrl (resolve : String → String → Option String)
    (url : String) (base : String) : String :=
  if startsWithCI ("http://".data) url.data ||
      startsWithCI ("https://".data) url.data ||
      startsWithChars ("//".data) url.data then url
  else if url.startsWith "#" || url.startsWith "javascript:" then url
  else
    match resolve url base with
    | some r => r
    | none => url

/-- JS `"a b".trim().split(/\s+/)` on an already-trimmed string. -/
def splitTokensAux : List Char → List Char → List (List Char)
  | [], acc => if acc.isEmpty then [] else [acc.reverse]
  | c :: rest, acc =>
    if isWsChar c then
      if acc.isEmpty then splitTokensAux rest []
      else acc.reverse :: splitTokensAux rest []
    else splitTokensAux rest (c :: acc)

def jsSplitWs (s : String) : List String :=
  let toks := (splitTokensAux s.data []).map String.mk
  if toks.isEmpty then [""] else toks

/-- One srcset entry: `[url, descriptor] = part.trim().split(/\s+/)`,
resolve the URL and re-join. -/
def rewriteSrcsetPart (resolve : String → String → Option String)
    (base : String) (part : String) : String :=
  let toks := jsSplitWs (jsTrim part)
  let url := (toks.head?).getD ""
  let descriptor := ((toks.drop 1).head?).getD ""
  jsTrim (resolveUrl resolve url base ++ " " ++ descriptor)

def rewriteSrcset (resolve : String → String → Option String)
    (base : String) (srcset : String) : String :=
  String.intercalate ", "
    ((srcset.splitOn ",").map (rewriteSrcsetPart resolve base))

/-- The image `src` rewriting step of `DomUtils.makeUrlsAbsolute`. -/
def absolutizeImgSrc (resolve : String → String → Option String)
    (base : String) (attrs : List (String × String)) :
    List (String × String) :=
  match getAttr attrs "src" with
  | some src =>
    if src ≠ "" then setAttr attrs "src" (resolveUrl resolve src base)
    else attrs
  | none => attrs

/-- The image `srcset` rewriting step of `DomUtils.makeUrlsAbsolute`. -/
def absolutizeImgSrcset (resolve : String → String → Option String)
    (base : String) (attrs : List (String × String)) :
    List (String × String) :=
  match getAttr attrs "srcset" with
  | some srcset =>
    if srcset ≠ "" then
      setAttr attrs "srcset" (rewriteSrcset resolve base srcset)
    else attrs
  | none => attrs

/-- The per-element attribute rewriting of `DomUtils.makeUrlsAbsolute`:
anchors' `href` (except in-page anchors and `javascript:`), images' `src`
and `srcset`. -/
def absolutizeAttrs (resolve : String → String → Option String)
    (base : String) (tag : String) (attrs : List (String × String)) :
    List (String × String) :=
  if tag = "a" then
    match getAttr attrs "href" with
    | some href =>
      if href ≠ "" && !(href.startsWith "#") && !(href.startsWith "javascript:")
      then setAttr attrs "href" (resolveUrl resolve href base)
      else attrs
    | none => attrs
  else if tag = "img" then
    absolutizeImgSrcset resolve base (absolutizeImgSrc resolve base attrs)
  else attrs

/-- `DomUtils.makeUrlsAbsolute` over the content subtree. -/
def makeUrlsAbsolute (resolve : String → String → Option String)
    (base : String) (content : DNode) : DNode :=
  mapAttrs (absolutizeAttrs resolve base) content

/-- `DomUtils.fixLazyImages`'s attribute list, in source order. -/
def lazyAttrs : List String :=
  ["data-src", "data-lazy-src", "data-original",
   "data-srcset", "data-lazy-srcset", "loading-src"]

/-- One deferred-load attribute: promote to `src`/`srcset` by suffix and
remove the attribute (note `data-original` matches neither suffix and is
only removed). -/
def fixLazyOne (attrs : List (String × String)) (attr : String) :
    List (String × String) :=
  match getAttr attrs attr with
  | some v =>
    if v ≠ "" then
      let a1 := if strEndsWith attr "src" then setAttr attrs "src" v else attrs
      let a2 := if strEndsWith attr "srcset" then setAttr a1 "srcset" v else a1
      removeAttr a2 attr
    else attrs
  | none => attrs

/-- The per-image body of `DomUtils.fixLazyImages`: the deferred-attribute
loop, then the placeholder-src removal check. -/
def fixLazyImgAttrs (attrs : List (String × String)) :
    List (String × String) :=
  let a := lazyAttrs.foldl fixLazyOne attrs
  match getAttr a "src" with
  | some src =>
    if src ≠ "" &&
        (hasSubChars ("data:image/".data) src.data ||
         hasSubChars ("blank.gif".data) src.data ||
         strEndsWith src "1x1.png") then
      if hasAttr a "data-src" || hasAttr a "data-original" then
        removeAttr a "src"
      else a
    else a
  | none => a

def fixLazyImagesAttrs (tag : String) (attrs : List (String × String)) :
    List (String × String) :=
  if tag = "img" then fixLazyImgAttrs attrs else attrs

/-- `DomUtils.fixLazyImages` over the content subtree. -/
def fixLazyImages (content : DNode) : DNode :=
  mapAttrs fixLazyImagesAttrs content

/-- `ContentExtractor.applyXssProtection`: sanitize `content.innerHTML`
through the DOMPurify collaborator; an initialization failure is caught
and the content is kept unsanitized. -/
def applyXssProtection (purify : List DNode → Except String (List DNode))
    (content : DNode) : DNode :=
  match content with
  | .text s => .text s
  | .elem i t a cs =>
    match purify cs with
    | .ok cs2 => .elem i t a cs2
    | .error _ => .elem i t a cs

/-- `ContentExtractor.postProcess`: absolutize URLs, then repair lazy
images, then (optionally) sanitize; finally reformat the date, keeping the
original string if parsing fails. -/
def postProcess (O : Oracles) (opts : ContentExtractorOptions)
    (base : String) (st : ExtractionState) : ExtractionState :=
  let st1 :=
    match st.content with
    | some c =>
      let c1 := makeUrlsAbsolute O.resolveUrl base c
      let c2 := fixLazyImages c1
      let c3 := if opts.enableXss then applyXssProtection O.purify c2 else c2
      { st with content := some c3 }
    | none => st
  match st1.date with
  | some d =>
    match O.formatDate d with
    | .ok f => { st1 with date := some f }
    | .error _ => st1
  | none => st1

/-- `ContentExtractor.getContentAsHtml`: `content.innerHTML`, else "". -/
def getContentAsHtml (st : ExtractionState) : String :=
  match st.content with
  | none => ""
  | some c => serializeList c.childrenOf

/-- `ContentExtractor.getResult`. -/
def getResult (st : ExtractionState) : ExtractionResult :=
  { title := st.title.getD ""
    html := getContentAsHtml st
    authors := st.authors
    date := st.date
    language := st.language
    image := st.image
    nextPageUrl := st.nextPageUrl
    isNativeAd := st.isNativeAd
    success := st.success }

/-- The tail of `ContentExtractor.process` (lines 113-124): Readability
fallback when no content was extracted, then post-processing and the
success flag when content exists. -/
def processFallbackAndPost (O : Oracles) (opts : ContentExtractorOptions)
    (url : String) (st3 : ExtractionState) (doc2 : Doc) : ExtractionState :=
  let st4 :=
    if st3.content.isNone then applyReadability (O.readability doc2) st3
    else st3
  if st4.content.isSome then { postProcess O opts url st4 with success := true }
  else st4

/-- `ContentExtractor.process`.  The caller-resolved site config (or
`none`) is the `siteConfig` argument; `url` doubles as the base URL
(`parsedUrl.toString()`).  `prepareDocumentForReadability` only sets
document-URL properties consumed by the Readability collaborator and has
no footprint in this model. -/
def process (O : Oracles) (opts : ContentExtractorOptions) (html : String)
    (url : String) (siteConfig : Option SiteConfig) : ExtractionState :=
  let st0 : ExtractionState := {}
  let html1 :=
    match siteConfig with
    | some cfg => processStringReplacements html cfg
    | none => html
  let doc := O.parse html1
  let st1 := extractMetadata O doc st0
  let (st3, doc2) :=
    match siteConfig with
    | some cfg =>
      let stA := { st1 with singlePageUrl := extractSinglePageUrl O doc cfg }
      let stB := { stA with nextPageUrl := extractNextPageUrl O doc cfg }
      applySiteConfig O cfg doc stB
    | none => (st1, doc)
  processFallbackAndPost O opts url st3 doc2

/- ===== Graby.processMultiPage (part_012, lines 443-558) ===== -/

/-- The slice of an `ExtractionResult` manipulated by the assembler: the
body HTML (kept as its parsed top-level node list, since the source
immediately reparses the string via `container.innerHTML`) and the
next-page URL. -/
structure PageExtract where
  html : List DNode
  nextPageUrl : Option String

/-- Outcome of one fetch-and-extract cycle for a continuation page:
a thrown error anywhere in the `try` block, a response without HTML,
or an extractor run with its success flag and result. -/
inductive FetchOutcome where
  | fetchError
  | noHtml
  | page (success : Bool) (res : PageExtract)

/-- The inline continuation-failure notice appended on extraction
failure. -/
def errorNote : DNode :=
  DNode.elem 0 "p" []
    [DNode.elem 0 "em" []
      [DNode.text
        "This article appears to continue on subsequent pages which we could not extract"]]

/-- `container.firstElementChild`: first element among the parsed
top-level nodes. -/
def firstElementChild (ns : List DNode) : Option DNode :=
  ns.find? DNode.isElem

/-- The `/^https?:\/\//i` test of `Graby.makeAbsoluteUrl`. -/
def isHttpAbsolute (url : String) : Bool :=
  startsWithCI ("http://".data) url.data ||
    startsWithCI ("https://".data) url.data

/-- `Graby.makeAbsoluteUrl`: empty URLs give null, absolute URLs pass
through, anything else goes through url-parse resolution (`none` models
the caught throw). -/
def makeAbsoluteUrl (resolve : String → String → Option String)
    (url : String) (baseUrl : String) : Option String :=
  if url = "" then none
  else if isHttpAbsolute url then some url
  else resolve url baseUrl

/-- The `while` loop of `processMultiPage`.  The state is the pending
next-page URL, the page counter, the visited-URL set and the accumulated
page elements; `fetched` is an observational log of the URLs passed to
`httpClient.fetch`.  The loop recurses only after a successful page, which
increments `count` under `count < limit`, so `limit + 1` units of fuel can
never be exhausted. -/
def processMultiPageLoop (world : String → FetchOutcome)
    (resolve : String → String → Option String) (baseUrl : String)
    (limit : Nat) :
    Nat → Option String → Nat → List String → List DNode → List String →
      List DNode × List String × Nat
  | 0, _, count, _, pages, fetched => (pages, fetched, count)
  | _fuel + 1, nextUrl, count, seen, pages, fetched =>
    if jsTruthy nextUrl ∧ count < limit then
      match makeAbsoluteUrl resolve (nextUrl.getD "") baseUrl with
      | none => (pages, fetched, count)
      | some absUrl =>
        if absUrl ∈ seen then (pages, fetched, count)
        else
          match world absUrl with
          | .fetchError => (pages ++ [errorNote], fetched ++ [absUrl], count)
          | .noHtml => (pages, fetched ++ [absUrl], count)
          | .page success res =>
            if success then
              processMultiPageLoop world resolve baseUrl limit _fuel
                res.nextPageUrl (count + 1) (absUrl :: seen)
                (pages ++ ((firstElementChild res.html).elim [] (fun e => [e])))
                (fetched ++ [absUrl])
            else (pages ++ [errorNote], fetched ++ [absUrl], count)
    else (pages, fetched, count)

/-- `Graby.processMultiPage`: visited set seeded with the starting URL,
page counter starting at 1; if more than one page accumulated, the
combined content replaces the first page's html, else `none` (the caller
keeps the single-page result).  The second and third components are the
observational fetch log and the final page counter. -/
def processMultiPage (world : String → FetchOutcome)
    (resolve : String → String → Option String) (limit : Nat)
    (firstPageResult : PageExtract) (baseUrl : String) :
    Option PageExtract × List String × Nat :=
  let pages0 := (firstElementChild firstPageResult.html).elim [] (fun e => [e])
  let r := processMultiPageLoop world resolve baseUrl limit (limit + 1)
    firstPageResult.nextPageUrl 1 [baseUrl] pages0 []
  match r with
  | (pages, fetched, count) =>
    if pages.length > 1 then
      (some { firstPageResult with html := pages }, fetched, count)
    else (none, fetched, count)

/- ===================================================================== -/
/- ===== Theorems ===== -/
/- ===================================================================== -/

/-- C4: For every fetched response, encoding resolution follows this
precedence: a truthy `forceEncoding` is used as the detected encoding
(and the conversion step still passes it through the mistake-correction
table before transcoding) regardless of headers or content; otherwise if
`autoDetectEncoding` is disabled the encoding is UTF-8; otherwise a
charset found in the Content-Type header wins over all content-derived
detection (the result does not depend on the body bytes or the
statistical detector at all); only when no header charset is present are
the statistical detector and the meta-tag scan consulted. -/
theorem c4_encoding_resolution_precedence
    (opts : HttpEncodingOptions) (headers : List (String × String))
    (chardet chardet' : List Nat → Option String)
    (rawBytes rawBytes' : List Nat) (e h : String) :
    (opts.forceEncoding = some e → e ≠ "" →
      fetchDetectedEncoding opts headers chardet rawBytes = e ∧
      (∀ dec ex bytes, convertToUtf8 dec ex bytes e
        = convertToUtf8Fixed dec ex bytes (fixCommonEncodingMistakes e))) ∧
    (opts.forceEncoding = none → opts.autoDetectEncoding = false →
      fetchDetectedEncoding opts headers chardet rawBytes = "utf-8") ∧
    (opts.forceEncoding = none → opts.autoDetectEncoding = true →
      detectEncodingFromHeaders headers = some h →
      fetchDetectedEncoding opts headers chardet rawBytes = h ∧
      fetchDetectedEncoding opts headers chardet rawBytes
        = fetchDetectedEncoding opts headers chardet' rawBytes') ∧
    (opts.forceEncoding = none → opts.autoDetectEncoding = true →
      detectEncodingFromHeaders headers = none →
      fetchDetectedEncoding opts headers chardet rawBytes
        = detectEncodingFromHtml chardet rawBytes) := by
  refine ⟨?_, ?_, ?_, ?_⟩
  · intro hf he
    constructor
    · simp [fetchDetectedEncoding, hf, jsTruthy, he]
    · intro dec ex bytes
      rfl
  · intro hf ha
    simp [fetchDetectedEncoding, hf, jsTruthy, ha]
  · intro hf ha hh
    constructor
    · simp [fetchDetectedEncoding, hf, jsTruthy, ha, hh]
    · simp [fetchDetectedEncoding, hf, jsTruthy, ha, hh]
  · intro hf ha hh
    simp [fetchDetectedEncoding, hf, jsTruthy, ha, hh]

theorem c4_witness :
    fetchDetectedEncoding ⟨true, some "Latin-1"⟩
      [("content-type", "text/html; charset=koi8-r")]
      (fun _ => some "windows-1251") [60] = "Latin-1" ∧
    convertToUtf8 (fun _ n => n) (fun _ => true) [60] "Latin-1"
      = convertToUtf8Fixed (fun _ n => n) (fun _ => true) [60]
          (fixCommonEncodingMistakes "Latin-1") ∧
    fetchDetectedEncoding ⟨false, none⟩
      [("content-type", "text/html; charset=koi8-r")]
      (fun _ => some "windows-1251") [60] = "utf-8" ∧
    fetchDetectedEncoding ⟨true, none⟩
      [("content-type", "text/html; charset=koi8-r")]
      (fun _ => some "windows-1251") [60] = "koi8-r" ∧
    fetchDetectedEncoding ⟨true, none⟩ [("content-type", "text/html")]
      (fun _ => some "windows-1251") [60]
      = detectEncodingFromHtml (fun _ => some "windows-1251") [60] := by
  have h1 := (c4_encoding_resolution_precedence ⟨true, some "Latin-1"⟩
    [("content-type", "text/html; charset=koi8-r")]
    (fun _ => some "windows-1251") (fun _ => some "windows-1251") [60] [60]
    "Latin-1" "koi8-r").1 rfl (by decide)
  have h2 := (c4_encoding_resolution_precedence ⟨false, none⟩
    [("content-type", "text/html; charset=koi8-r")]
    (fun _ => some "windows-1251") (fun _ => some "windows-1251") [60] [60]
    "Latin-1" "koi8-r").2.1 rfl rfl
  have h3 := ((c4_encoding_resolution_precedence ⟨true, none⟩
    [("content-type", "text/html; charset=koi8-r")]
    (fun _ => some "windows-1251") (fun _ => some "windows-1251") [60] [60]
    "Latin-1" "koi8-r").2.2.1 rfl rfl (by decide)).1
  have h4 := (c4_encoding_resolution_precedence ⟨true, none⟩
    [("content-type", "text/html")]
    (fun _ => some "windows-1251") (fun _ => some "windows-1251") [60] [60]
    "Latin-1" "koi8-r").2.2.2 rfl rfl (by decide)
  exact ⟨h1.1, h1.2 (fun _ n => n) (fun _ => true) [60], h2, h3, h4⟩

/-- The analysis window is idempotent: truncating the input to the window
does not change the window. -/
theorem sampleOf_take (bytes : List Nat) :
    sampleOf (bytes.take MAX_CHARSET_DETECTION_SIZE) = sampleOf bytes := by
  unfold sampleOf
  by_cases h : bytes.length > MAX_CHARSET_DETECTION_SIZE
  · have hlen : (bytes.take MAX_CHARSET_DETECTION_SIZE).length
        = MAX_CHARSET_DETECTION_SIZE := by
      simp [List.length_take]
      omega
    simp [h, hlen]
  · have hle : bytes.length ≤ MAX_CHARSET_DETECTION_SIZE := by omega
    simp [List.take_of_length_le hle, h]

/-- C9: Content-based encoding detection analyzes at most the first
50 000 bytes (the result only depends on that window), and whenever the
statistical detector reports nothing or ASCII on the window and the
window's declaration scan finds no charset declaration (in particular
when the only declaration lies beyond the window), the resolved encoding
is `utf-8`. -/
theorem c9_detection_window_and_utf8_default
    (chardet : List Nat → Option String) (bytes : List Nat) :
    detectEncodingFromHtml chardet bytes
      = detectEncodingFromHtml chardet (bytes.take MAX_CHARSET_DETECTION_SIZE) ∧
    (((chardet (sampleOf bytes)).map jsToLower = none ∨
      (chardet (sampleOf bytes)).map jsToLower = some "ascii") →
     scanCharsetDecl (asciiDecode (sampleOf bytes)) = none →
     detectEncodingFromHtml chardet bytes = "utf-8") := by
  constructor
  · unfold detectEncodingFromHtml
    rw [sampleOf_take]
  · intro h1 h2
    unfold detectEncodingFromHtml
    rcases h1 with h | h <;> simp [h, h2]

/- Witness machinery for the detection-window theorem: an all-`'a'` window
contains no charset declaration, since every matcher looks for a literal
starting with `<`. -/

theorem startsWithCI_lt_a (ps : List Char) (l : List Char) :
    startsWithCI ('<' :: ps) ('a' :: l) = false := by
  simp [startsWithCI]

theorem expectCI_lt_a (ps l : List Char) :
    expectCI ('<' :: ps) ('a' :: l) = none := by
  simp [expectCI, startsWithCI_lt_a]

theorem xmlDeclMatch_a (l : List Char) : xmlDeclMatch ('a' :: l) = none := by
  simp [xmlDeclMatch, expectCI_lt_a, Option.bind]

theorem metaHttpEquivAt_a (l : List Char) :
    metaHttpEquivAt ('a' :: l) = none := by
  simp [metaHttpEquivAt, expectCI_lt_a, Option.bind]

theorem metaHttpEquivCharsetAt_a (l : List Char) :
    metaHttpEquivCharsetAt ('a' :: l) = none := by
  simp [metaHttpEquivCharsetAt, metaHttpEquivAt_a, Option.bind]

theorem metaCharsetAt_a (l : List Char) : metaCharsetAt ('a' :: l) = none := by
  simp [metaCharsetAt, expectCI_lt_a, Option.bind]

theorem metaTagAt_a (l : List Char) : metaTagAt ('a' :: l) = none := by
  simp [metaTagAt, expectCI_lt_a, Option.bind]

theorem scanFor_replicate_a (tryAt : List Char → Option String)
    (h : ∀ l, tryAt ('a' :: l) = none) :
    ∀ n, scanFor tryAt (List.replicate n 'a') = none := by
  intro n
  induction n with
  | zero => rfl
  | succ m ih =>
    rw [List.replicate_succ]
    simp [scanFor, h, ih]

theorem scanForB_replicate_a (tryAt : List Char → Bool)
    (h : ∀ l, tryAt ('a' :: l) = false) :
    ∀ n, scanForB tryAt (List.replicate n 'a') = false := by
  intro n
  induction n with
  | zero => rfl
  | succ m ih =>
    rw [List.replicate_succ]
    simp [scanForB, h, ih]

theorem scanCharsetDecl_replicate_a (n : Nat) :
    scanCharsetDecl (List.replicate n 'a') = none := by
  cases n with
  | zero => rfl
  | succ m =>
    have hx : xmlDeclMatch (List.replicate (m + 1) 'a') = none := by
      rw [List.replicate_succ]; exact xmlDeclMatch_a _
    have hb : scanForB (fun l => (metaHttpEquivAt l).isSome)
        (List.replicate (m + 1) 'a') = false :=
      scanForB_replicate_a _ (fun l => by simp [metaHttpEquivAt_a]) _
    have hc : scanFor metaCharsetAt (List.replicate (m + 1) 'a') = none :=
      scanFor_replicate_a _ metaCharsetAt_a _
    have ht : scanFor (fun l => (metaTagAt l).bind metaTagsScanOne)
        (List.replicate (m + 1) 'a') = none :=
      scanFor_replicate_a _ (fun l => by simp [metaTagAt_a, Option.bind]) _
    simp [scanCharsetDecl, hx, hb, hc, ht]

/-- The byte stream of the witness: a 50 000-byte all-ASCII window followed
by a koi8-r meta declaration that lies beyond the analysis window. -/
def c9Bytes : List Nat :=
  List.replicate MAX_CHARSET_DETECTION_SIZE 97 ++
    ("<meta charset=koi8-r>".data.map Char.toNat)

def c9ChardetOracle : List Nat → Option String := fun _ => some "ascii"

theorem c9_witness :
    (c9ChardetOracle (sampleOf c9Bytes)).map jsToLower = some "ascii" ∧
    scanCharsetDecl (asciiDecode (sampleOf c9Bytes)) = none ∧
    detectEncodingFromHtml c9ChardetOracle c9Bytes = "utf-8" := by
  have hsample : sampleOf c9Bytes
      = List.replicate MAX_CHARSET_DETECTION_SIZE 97 := by
    have hgt : c9Bytes.length > MAX_CHARSET_DETECTION_SIZE := by
      unfold c9Bytes
      rw [List.length_append, List.length_replicate, List.length_map]
      have h21 : ("<meta charset=koi8-r>".data).length = 21 := rfl
      rw [h21]
      unfold MAX_CHARSET_DETECTION_SIZE
      omega
    have htake : c9Bytes.take MAX_CHARSET_DETECTION_SIZE
        = List.replicate MAX_CHARSET_DETECTION_SIZE 97 := by
      unfold c9Bytes
      exact List.take_left' (List.length_replicate ..)
    simp [sampleOf, hgt, htake]
  have hascii : asciiDecode (List.replicate MAX_CHARSET_DETECTION_SIZE 97)
      = List.replicate MAX_CHARSET_DETECTION_SIZE 'a' := by
    unfold asciiDecode
    rw [List.map_replicate]
    norm_num
  have h1 : (c9ChardetOracle (sampleOf c9Bytes)).map jsToLower
      = some "ascii" := by
    simp [c9ChardetOracle]
    decide
  have h2 : scanCharsetDecl (asciiDecode (sampleOf c9Bytes)) = none := by
    rw [hsample, hascii]
    exact scanCharsetDecl_replicate_a _
  exact ⟨h1, h2,
    (c9_detection_window_and_utf8_default c9ChardetOracle c9Bytes).2
      (Or.inr h1) h2⟩

theorem nodeOccurs_self (x : DNode) : nodeOccurs x x := by
  cases x <;> simp [nodeOccurs]

/-- If a node reference resolves in the document, the replacement function
leaves the made-over node in place of the original occurrence. -/
theorem replace_occurs (k : Nat) (mk : DNode → DNode) :
    ∀ (d : List DNode) (n : DNode), findByIdList k d = some n →
      nodeOccursList (mk n) (replaceByIdList k mk d)
  | [], n, h => by simp [findByIdList] at h
  | .text s :: cs, n, h => by
    have h' : findByIdList k cs = some n := by
      simpa [findByIdList, findById] using h
    have ih := replace_occurs k mk cs n h'
    simp only [replaceByIdList, nodeOccursList]
    exact Or.inr ih
  | .elem i t a gs :: cs, n, h => by
    by_cases hik : i = k
    · subst hik
      have hn : n = DNode.elem i t a gs := by
        have : some (DNode.elem i t a gs) = some n := by
          simpa [findByIdList, findById] using h
        exact (Option.some.inj this).symm
      subst hn
      simp only [replaceByIdList, if_pos rfl, nodeOccursList]
      exact Or.inl (nodeOccurs_self _)
    · cases hgs : findByIdList k gs with
      | some m =>
        have hm : m = n := by
          have : findById k (DNode.elem i t a gs) = some m := by
            simp [findById, hik, hgs]
          have : some m = some n := by
            rw [findByIdList, this] at h
            exact h
          exact Option.some.inj this
        subst hm
        have ih := replace_occurs k mk gs m hgs
        simp only [replaceByIdList, if_neg hik, nodeOccursList, nodeOccurs]
        exact Or.inl (Or.inr ih)
      | none =>
        have h' : findByIdList k cs = some n := by
          have hf : findById k (DNode.elem i t a gs) = none := by
            simp [findById, hik, hgs]
          rw [findByIdList, hf] at h
          exact h
        have ih := replace_occurs k mk cs n h'
        simp only [replaceByIdList, if_neg hik, nodeOccursList]
        exact Or.inr ih

/-- C8: the `wrap_in` step accepts only `blockquote`, `p` and `div`: an
entry with any other tag is skipped (a warning is logged, outside the
model) and leaves the document unchanged; an entry with a whitelisted tag
wraps the matched node references via `wrapElements`, and each resolvable
matched node is replaced in place by a fresh element of the wrap tag
containing the original node's markup. -/
theorem c8_wrap_in_whitelist (O : Oracles) (d : Doc) (tag pat : String) :
    (tag ∉ acceptedWrapInTags → applyWrapEntry O d (tag, pat) = d) ∧
    (tag ∈ acceptedWrapInTags → ∀ ks, O.xeval pat d = .ok ks → ks ≠ [] →
      applyWrapEntry O d (tag, pat) = wrapElements d ks tag) ∧
    (∀ k n, findByIdList k d = some n →
      nodeOccursList (DNode.elem (maxIdList d + 1) tag [] [n])
        (wrapOne tag d k)) := by
  refine ⟨?_, ?_, ?_⟩
  · intro hmem
    simp [applyWrapEntry, hmem]
  · intro hmem ks hev hne
    simp [applyWrapEntry, hmem, hev, hne]
  · intro k n hfind
    unfold wrapOne
    rw [hfind]
    exact replace_occurs k
      (fun old => DNode.elem (maxIdList d + 1) tag [] [old]) d n hfind

def c8Doc : Doc :=
  [DNode.elem 1 "html" []
    [DNode.elem 2 "body" []
      [DNode.elem 3 "q" [] [DNode.text "quoted"],
       DNode.elem 4 "p" [] [DNode.text "para"]]]]

/-- A concrete selector engine used by witnesses: an expression matches
every element whose tag equals it, in document order. -/
def tagEval : String → Doc → Except String (List Nat) :=
  fun pat d =>
    .ok ((collectElemsList (fun n => n.tagOf == some pat) d).filterMap
      DNode.idOf)

def c8O : Oracles :=
  { parse := fun _ => c8Doc
    xeval := tagEval
    jsonParse := fun _ => .error "none"
    readability := fun _ => .ok none
    resolveUrl := fun _ _ => none
    purify := fun cs => .ok cs
    formatDate := fun d => .ok d }

theorem c8_witness :
    applyWrapEntry c8O c8Doc ("script", "q") = c8Doc ∧
    applyWrapEntry c8O c8Doc ("blockquote", "q")
      = wrapElements c8Doc [3] "blockquote" ∧
    nodeOccursList
      (DNode.elem (maxIdList c8Doc + 1) "blockquote" []
        [DNode.elem 3 "q" [] [DNode.text "quoted"]])
      (wrapOne "blockquote" c8Doc 3) := by
  have h := c8_wrap_in_whitelist c8O c8Doc "script" "q"
  have h2 := c8_wrap_in_whitelist c8O c8Doc "blockquote" "q"
  refine ⟨h.1 (by decide), ?_, ?_⟩
  · exact h2.2.1 (by decide) [3] (by rfl) (by decide)
  · exact h2.2.2 3 (DNode.elem 3 "q" [] [DNode.text "quoted"]) (by rfl)

/-- Detaching a set of node references removes every element so
referenced from the document. -/
theorem removeIds_not_occurs (ids : List Nat) (k : Nat) (hk : k ∈ ids) :
    ∀ d : List DNode, idOccursList k (removeIdsList ids d) = false
  | [] => by simp [removeIdsList, idOccursList]
  | .text s :: cs => by
    simp only [removeIdsList, idOccursList, idOccurs]
    simp [removeIds_not_occurs ids k hk cs]
  | .elem i t a gs :: cs => by
    by_cases hi : i ∈ ids
    · simp only [removeIdsList, if_pos hi]
      exact removeIds_not_occurs ids k hk cs
    · have hik : i ≠ k := fun he => hi (he ▸ hk)
      simp only [removeIdsList, if_neg hi, removeIds, idOccursList, idOccurs]
      simp [hik, removeIds_not_occurs ids k hk gs,
        removeIds_not_occurs ids k hk cs]

/-- Detaching references never makes a reference appear. -/
theorem removeIds_occurs_mono (ids : List Nat) (k : Nat) :
    ∀ d : List DNode, idOccursList k (removeIdsList ids d) = true →
      idOccursList k d = true
  | [], h => by simp [removeIdsList, idOccursList] at h
  | .text s :: cs, h => by
    simp only [removeIdsList, idOccursList, idOccurs] at h ⊢
    simp at h
    simp [removeIds_occurs_mono ids k cs h]
  | .elem i t a gs :: cs, h => by
    by_cases hi : i ∈ ids
    · simp only [removeIdsList, if_pos hi] at h
      have := removeIds_occurs_mono ids k cs h
      simp [idOccursList, this]
    · simp only [removeIdsList, if_neg hi, removeIds, idOccursList, idOccurs]
        at h ⊢
      rcases Bool.or_eq_true_iff.mp h with h1 | h2
      · rcases Bool.or_eq_true_iff.mp h1 with ha | hb
        · simp [ha]
        · simp [removeIds_occurs_mono ids k gs hb]
      · simp [removeIds_occurs_mono ids k cs h2]

/-- Strip steps preserve the absence of a reference. -/
theorem applyStripRules_preserves_absent (O : Oracles) (k : Nat) :
    ∀ (rules : List String) (d : Doc), idOccursList k d = false →
      idOccursList k (applyStripRules O rules d) = false := by
  intro rules
  induction rules with
  | nil => intro d h; exact h
  | cons pat rest ih =>
    intro d h
    show idOccursList k (applyStripRules O rest
      (match O.xeval pat d with
       | .error _ => d
       | .ok ks => removeIdsList ks d)) = false
    cases hev : O.xeval pat d with
    | error m => exact ih d h
    | ok ks =>
      apply ih
      cases ho : idOccursList k (removeIdsList ks d) with
      | false => rfl
      | true => exact absurd (removeIds_occurs_mono ks k d ho) (by simp [h])

/-- A subtree found by reference only contains references occurring in
the document. -/
theorem findByIdList_occurs (k : Nat) :
    ∀ (d : List DNode) (n : DNode), findByIdList k d = some n →
      ∀ j, idOccurs j n = true → idOccursList j d = true
  | [], n, h => by simp [findByIdList] at h
  | .text s :: cs, n, h => by
    have h' : findByIdList k cs = some n := by
      simpa [findByIdList, findById] using h
    intro j hj
    have := findByIdList_occurs k cs n h' j hj
    simp [idOccursList, idOccurs, this]
  | .elem i t a gs :: cs, n, h => by
    intro j hj
    by_cases hik : i = k
    · subst hik
      have hn : n = DNode.elem i t a gs := by
        have : some (DNode.elem i t a gs) = some n := by
          simpa [findByIdList, findById] using h
        exact (Option.some.inj this).symm
      subst hn
      simp [idOccursList, hj]
    · cases hgs : findByIdList k gs with
      | some m =>
        have hm : m = n := by
          have hf : findById k (DNode.elem i t a gs) = some m := by
            simp [findById, hik, hgs]
          rw [findByIdList, hf] at h
          exact Option.some.inj h
        subst hm
        have := findByIdList_occurs k gs m hgs j hj
        simp [idOccursList, idOccurs, this]
      | none =>
        have h' : findByIdList k cs = some n := by
          have hf : findById k (DNode.elem i t a gs) = none := by
            simp [findById, hik, hgs]
          rw [findByIdList, hf] at h
          exact h
        have := findByIdList_occurs k cs n h' j hj
        simp [idOccursList, this]

/-- Every child of the winning body container is a clone of a node found
by reference in the document the body rules were evaluated against. -/
theorem applyBodyRules_children (O : Oracles) (d : Doc) :
    ∀ (rules : List String) (c : DNode), applyBodyRules O d rules = some c →
      ∀ n, n ∈ c.childrenOf → ∃ j, findByIdList j d = some n := by
  intro rules
  induction rules with
  | nil => intro c h; simp [applyBodyRules] at h
  | cons pat rest ih =>
    intro c h n hn
    rw [applyBodyRules] at h
    cases hev : O.xeval pat d with
    | error m =>
      rw [hev] at h
      exact ih c h n hn
    | ok ks =>
      rw [hev] at h
      cases ks with
      | nil => exact ih c h n hn
      | cons k0 ks' =>
        have hc : c = DNode.elem (maxIdList d + 1) "div" []
            ((k0 :: ks').filterMap (fun j => findByIdList j d)) :=
          (Option.some.inj h).symm
        subst hc
        simp only [DNode.childrenOf] at hn
        obtain ⟨j, _, hj⟩ := List.mem_filterMap.mp hn
        exact ⟨j, hj⟩

/-- The title loop only ever writes the `title` field. -/
theorem applyTitleRules_shape (O : Oracles) (doc : Doc) :
    ∀ (rules : List String) (st : ExtractionState),
      ∃ t, applyTitleRules O doc rules st = { st with title := t } := by
  intro rules
  induction rules with
  | nil => intro st; exact ⟨st.title, rfl⟩
  | cons pat rest ih =>
    intro st
    cases hev : O.xeval pat doc with
    | error m => simpa [applyTitleRules, hev] using ih st
    | ok ks =>
      cases ks with
      | nil => simpa [applyTitleRules, hev] using ih st
      | cons k ks' =>
        cases hf : findByIdList k doc with
        | some n =>
          exact ⟨jsOrNull (nodeText n), by simp [applyTitleRules, hev, hf]⟩
        | none => simpa [applyTitleRules, hev, hf] using ih st

/-- The native-ad loop only ever writes the `isNativeAd` field. -/
theorem applyNativeAdRules_shape (O : Oracles) (doc : Doc) :
    ∀ (rules : List String) (st : ExtractionState),
      ∃ b, applyNativeAdRules O doc rules st = { st with isNativeAd := b } := by
  intro rules
  induction rules with
  | nil => intro st; exact ⟨st.isNativeAd, rfl⟩
  | cons pat rest ih =>
    intro st
    cases hev : O.xeval pat doc with
    | error m => simpa [applyNativeAdRules, hev] using ih st
    | ok ks =>
      cases ks with
      | nil => simpa [applyNativeAdRules, hev] using ih st
      | cons k ks' => exact ⟨true, by simp [applyNativeAdRules, hev]⟩

/-- C3: rule application performs title, nativeAdClue, wrap_in, strip and
body in this order: the live document returned by `applySiteConfig` is
exactly the strip step applied after the wrap step (body extraction does
not mutate it); the extracted content is the winning body expression's
container of deep clones taken from that live document; every node
reference matched by a strip expression (evaluated at its point in the
sequence) is detached before body extraction, so no stripped subtree
occurs in the live document or inside the extracted body. -/
theorem c3_rule_order_strip_before_body (O : Oracles) (cfg : SiteConfig)
    (doc : Doc) (st : ExtractionState) :
    ((applySiteConfig O cfg doc st).2
      = applyStripRules O cfg.strip (applyWrapInRules O cfg.wrap_in doc)) ∧
    ((applySiteConfig O cfg doc st).1.content
      = match applyBodyRules O (applySiteConfig O cfg doc st).2 cfg.body with
        | some c => some c
        | none => st.content) ∧
    (∀ pre pat post ks k, cfg.strip = pre ++ pat :: post →
      O.xeval pat (applyStripRules O pre (applyWrapInRules O cfg.wrap_in doc))
        = .ok ks →
      k ∈ ks →
      idOccursList k (applySiteConfig O cfg doc st).2 = false) ∧
    (∀ c, applyBodyRules O (applySiteConfig O cfg doc st).2 cfg.body = some c →
      ∀ n, n ∈ c.childrenOf →
        ∃ j, findByIdList j (applySiteConfig O cfg doc st).2 = some n) ∧
    (∀ pre pat post ks k c n, cfg.strip = pre ++ pat :: post →
      O.xeval pat (applyStripRules O pre (applyWrapInRules O cfg.wrap_in doc))
        = .ok ks →
      k ∈ ks →
      applyBodyRules O (applySiteConfig O cfg doc st).2 cfg.body = some c →
      n ∈ c.childrenOf →
      idOccurs k n = false) := by
  have hdoc2 : (applySiteConfig O cfg doc st).2
      = applyStripRules O cfg.strip (applyWrapInRules O cfg.wrap_in doc) := by
    unfold applySiteConfig
    cases applyBodyRules O
      (applyStripRules O cfg.strip (applyWrapInRules O cfg.wrap_in doc))
      cfg.body <;> rfl
  have hstrip : ∀ pre pat post ks k, cfg.strip = pre ++ pat :: post →
      O.xeval pat (applyStripRules O pre (applyWrapInRules O cfg.wrap_in doc))
        = .ok ks →
      k ∈ ks →
      idOccursList k (applySiteConfig O cfg doc st).2 = false := by
    intro pre pat post ks k hsplit hev hk
    rw [hdoc2, hsplit]
    unfold applyStripRules
    rw [List.foldl_append, List.foldl_cons]
    have hstep :
        (match O.xeval pat
            (List.foldl (fun acc pat =>
              match O.xeval pat acc with
              | .error _ => acc
              | .ok ks => removeIdsList ks acc)
              (applyWrapInRules O cfg.wrap_in doc) pre) with
         | .error _ => (List.foldl (fun acc pat =>
              match O.xeval pat acc with
              | .error _ => acc
              | .ok ks => removeIdsList ks acc)
              (applyWrapInRules O cfg.wrap_in doc) pre)
         | .ok ks => removeIdsList ks
            (List.foldl (fun acc pat =>
              match O.xeval pat acc with
              | .error _ => acc
              | .ok ks => removeIdsList ks acc)
              (applyWrapInRules O cfg.wrap_in doc) pre))
        = removeIdsList ks
            (applyStripRules O pre (applyWrapInRules O cfg.wrap_in doc)) := by
      rw [show (List.foldl (fun acc pat =>
              match O.xeval pat acc with
              | .error _ => acc
              | .ok ks => removeIdsList ks acc)
              (applyWrapInRules O cfg.wrap_in doc) pre)
          = applyStripRules O pre (applyWrapInRules O cfg.wrap_in doc) from rfl]
      rw [hev]
    rw [hstep]
    exact applyStripRules_preserves_absent O k post _
      (removeIds_not_occurs ks k hk _)
  refine ⟨hdoc2, ?_, hstrip, ?_, ?_⟩
  · obtain ⟨t, ht⟩ := applyTitleRules_shape O doc cfg.title st
    obtain ⟨b, hb⟩ := applyNativeAdRules_shape O doc cfg.native_ad_clue
      { st with title := t }
    simp only [applySiteConfig, ht, hb]
    cases applyBodyRules O
      (applyStripRules O cfg.strip (applyWrapInRules O cfg.wrap_in doc))
      cfg.body <;> rfl
  · intro c hc n hn
    exact applyBodyRules_children O _ cfg.body c hc n hn
  · intro pre pat post ks k c n hsplit hev hk hc hn
    obtain ⟨j, hj⟩ := applyBodyRules_children O _ cfg.body c hc n hn
    cases ho : idOccurs k n with
    | false => rfl
    | true =>
      have habs := hstrip pre pat post ks k hsplit hev hk
      have := findByIdList_occurs j _ n hj k ho
      rw [this] at habs
      exact absurd habs (by simp)

def c3Doc : Doc :=
  [DNode.elem 1 "html" []
    [DNode.elem 2 "div" []
      [DNode.elem 3 "p" [] [DNode.text "keep"],
       DNode.elem 4 "aside" [] [DNode.text "ad"]],
     DNode.elem 5 "aside" [] [DNode.text "ad2"]]]

def c3O : Oracles :=
  { parse := fun _ => c3Doc
    xeval := tagEval
    jsonParse := fun _ => .error "none"
    readability := fun _ => .ok none
    resolveUrl := fun _ _ => none
    purify := fun cs => .ok cs
    formatDate := fun d => .ok d }

def c3Cfg : SiteConfig := { strip := ["aside"], body := ["div"] }

theorem c3_witness :
    (applySiteConfig c3O c3Cfg c3Doc {}).2
      = applyStripRules c3O c3Cfg.strip
          (applyWrapInRules c3O c3Cfg.wrap_in c3Doc) ∧
    idOccursList 4 (applySiteConfig c3O c3Cfg c3Doc {}).2 = false ∧
    idOccurs 4
      (DNode.elem 2 "div" [] [DNode.elem 3 "p" [] [DNode.text "keep"]])
      = false := by
  have h := c3_rule_order_strip_before_body c3O c3Cfg c3Doc {}
  refine ⟨h.1, ?_, ?_⟩
  · exact h.2.2.1 [] "aside" [] [4, 5] 4 rfl (by rfl) (by decide)
  · exact h.2.2.2.2 [] "aside" [] [4, 5] 4
      (DNode.elem 4 "div" []
        [DNode.elem 2 "div" [] [DNode.elem 3 "p" [] [DNode.text "keep"]]])
      (DNode.elem 2 "div" [] [DNode.elem 3 "p" [] [DNode.text "keep"]])
      rfl (by rfl) (by decide) (by rfl) (List.mem_singleton.mpr rfl)

/- Shape lemmas: each pipeline stage only writes the fields it owns. -/

theorem extractBasicMetadata_shape (doc : Doc) (st : ExtractionState) :
    ∃ t l, extractBasicMetadata doc st = { st with title := t, language := l } := by
  simp only [extractBasicMetadata]
  repeat' split
  all_goals exact ⟨_, _, rfl⟩

theorem extractOpenGraph_shape (doc : Doc) (st : ExtractionState) :
    ∃ t i l d, extractOpenGraph doc st
      = { st with title := t, image := i, language := l, date := d } := by
  simp only [extractOpenGraph]
  repeat' split
  all_goals exact ⟨_, _, _, _, rfl⟩

theorem extractJsonLdOne_shape (data : JsonLd) (st : ExtractionState) :
    ∃ t d a, extractJsonLdOne data st
      = { st with title := t, date := d, authors := a } := by
  simp only [extractJsonLdOne]
  repeat' split
  all_goals exact ⟨_, _, _, rfl⟩

theorem extractJsonLd_shape (O : Oracles) (doc : Doc) :
    ∀ st, ∃ t d a, extractJsonLd O doc st
      = { st with title := t, date := d, authors := a } := by
  unfold extractJsonLd
  generalize collectElemsList _ doc = scripts
  induction scripts with
  | nil => intro st; exact ⟨_, _, _, rfl⟩
  | cons scr rest ih =>
    intro st
    rw [List.foldl_cons]
    cases hp : O.jsonParse
      (if nodeText scr = "" then "\x7b\x7d" else nodeText scr) with
    | error m =>
      have hf : (match O.jsonParse
          (if nodeText scr = "" then "\x7b\x7d" else nodeText scr) with
        | .ok data => extractJsonLdOne data st
        | .error _ => st) = st := by rw [hp]
      rw [hf]
      exact ih st
    | ok data =>
      have hf : (match O.jsonParse
          (if nodeText scr = "" then "\x7b\x7d" else nodeText scr) with
        | .ok data => extractJsonLdOne data st
        | .error _ => st) = extractJsonLdOne data st := by rw [hp]
      rw [hf]
      obtain ⟨t0, d0, a0, h1⟩ := extractJsonLdOne_shape data st
      rw [h1]
      obtain ⟨t, d, a, h2⟩ := ih { st with title := t0, date := d0, authors := a0 }
      exact ⟨t, d, a, h2⟩

theorem extractMetadata_shape (O : Oracles) (doc : Doc) (st : ExtractionState) :
    ∃ t l i d a, extractMetadata O doc st
      = { st with title := t, language := l, image := i, date := d,
                  authors := a } := by
  obtain ⟨t1, l1, h1⟩ := extractBasicMetadata_shape doc st
  obtain ⟨t2, i2, l2, d2, h2⟩ := extractOpenGraph_shape doc
    { st with title := t1, language := l1 }
  obtain ⟨t3, d3, a3, h3⟩ := extractJsonLd_shape O doc
    { { st with title := t1, language := l1 } with
      title := t2, image := i2, language := l2, date := d2 }
  refine ⟨t3, l2, i2, d3, a3, ?_⟩
  unfold extractMetadata
  rw [h1, h2, h3]

theorem applySiteConfig_shape (O : Oracles) (cfg : SiteConfig) (doc : Doc)
    (st : ExtractionState) :
    ∃ t b c, (applySiteConfig O cfg doc st).1
      = { st with title := t, isNativeAd := b, content := c } := by
  obtain ⟨t, ht⟩ := applyTitleRules_shape O doc cfg.title st
  obtain ⟨b, hb⟩ := applyNativeAdRules_shape O doc cfg.native_ad_clue
    { st with title := t }
  cases h : applyBodyRules O
      (applyStripRules O cfg.strip (applyWrapInRules O cfg.wrap_in doc))
      cfg.body with
  | some c =>
    exact ⟨t, b, some c, by simp only [applySiteConfig, ht, hb, h]⟩
  | none =>
    exact ⟨t, b, st.content, by simp only [applySiteConfig, ht, hb, h]⟩

theorem applyReadability_shape
    (r : Except String (Option ReadabilityArticle)) (st : ExtractionState) :
    ∃ t c d a s, applyReadability r st
      = { st with title := t, content := c, date := d, authors := a,
                  success := s } := by
  simp only [applyReadability]
  repeat' split
  all_goals exact ⟨_, _, _, _, _, rfl⟩

theorem postProcess_shape (O : Oracles) (opts : ContentExtractorOptions)
    (base : String) (st : ExtractionState) :
    ∃ c d, postProcess O opts base st = { st with content := c, date := d } := by
  simp only [postProcess]
  repeat' split
  all_goals exact ⟨_, _, rfl⟩

theorem postProcess_content_isSome (O : Oracles)
    (opts : ContentExtractorOptions) (base : String) (st : ExtractionState) :
    (postProcess O opts base st).content.isSome = st.content.isSome := by
  simp only [postProcess]
  cases h : st.content with
  | none => repeat' split <;> simp_all
  | some c => repeat' split <;> simp_all

theorem processFallbackAndPost_shape (O : Oracles)
    (opts : ContentExtractorOptions) (url : String) (st3 : ExtractionState)
    (doc2 : Doc) :
    ∃ t c d a s, processFallbackAndPost O opts url st3 doc2
      = { st3 with title := t, content := c, date := d, authors := a,
                   success := s } := by
  simp only [processFallbackAndPost]
  obtain ⟨t1, c1, d1, a1, s1, h1⟩ :=
    applyReadability_shape (O.readability doc2) st3
  cases hn : st3.content.isNone with
  | true =>
    simp only [hn, if_pos, h1]
    obtain ⟨c2, d2, h2⟩ := postProcess_shape O opts url
      { st3 with title := t1, content := c1, date := d1, authors := a1,
                 success := s1 }
    split
    · rw [h2]
      exact ⟨_, _, _, _, _, rfl⟩
    · exact ⟨_, _, _, _, _, rfl⟩
  | false =>
    simp only [hn, Bool.false_eq_true, if_neg, ite_false]
    obtain ⟨c2, d2, h2⟩ := postProcess_shape O opts url st3
    split
    · rw [h2]
      exact ⟨_, _, _, _, _, rfl⟩
    · exact ⟨st3.title, st3.content, st3.date, st3.authors, st3.success, rfl⟩

/-- C10: with a site config present, the single-page and next-page links
reported by `process` are the ones extracted from the freshly parsed
document, before the wrap_in/strip/body rules mutate it — so a link whose
node is stripped later is still reported. -/
theorem c10_pagination_links_extracted_before_mutation (O : Oracles)
    (opts : ContentExtractorOptions) (html url : String) (cfg : SiteConfig) :
    (process O opts html url (some cfg)).nextPageUrl
      = extractNextPageUrl O (O.parse (processStringReplacements html cfg)) cfg ∧
    (process O opts html url (some cfg)).singlePageUrl
      = extractSinglePageUrl O (O.parse (processStringReplacements html cfg))
          cfg := by
  have hp : process O opts html url (some cfg)
      = processFallbackAndPost O opts url
          (applySiteConfig O cfg (O.parse (processStringReplacements html cfg))
            { extractMetadata O (O.parse (processStringReplacements html cfg)) {}
              with
              singlePageUrl := extractSinglePageUrl O
                (O.parse (processStringReplacements html cfg)) cfg,
              nextPageUrl := extractNextPageUrl O
                (O.parse (processStringReplacements html cfg)) cfg }).1
          (applySiteConfig O cfg (O.parse (processStringReplacements html cfg))
            { extractMetadata O (O.parse (processStringReplacements html cfg)) {}
              with
              singlePageUrl := extractSinglePageUrl O
                (O.parse (processStringReplacements html cfg)) cfg,
              nextPageUrl := extractNextPageUrl O
                (O.parse (processStringReplacements html cfg)) cfg }).2 := rfl
  obtain ⟨t, b, c, h1⟩ := applySiteConfig_shape O cfg
    (O.parse (processStringReplacements html cfg))
    { extractMetadata O (O.parse (processStringReplacements html cfg)) {} with
      singlePageUrl := extractSinglePageUrl O
        (O.parse (processStringReplacements html cfg)) cfg,
      nextPageUrl := extractNextPageUrl O
        (O.parse (processStringReplacements html cfg)) cfg }
  obtain ⟨t2, c2, d2, a2, s2, h2⟩ := processFallbackAndPost_shape O opts url
    (applySiteConfig O cfg (O.parse (processStringReplacements html cfg))
      { extractMetadata O (O.parse (processStringReplacements html cfg)) {} with
        singlePageUrl := extractSinglePageUrl O
          (O.parse (processStringReplacements html cfg)) cfg,
        nextPageUrl := extractNextPageUrl O
          (O.parse (processStringReplacements html cfg)) cfg }).1
    (applySiteConfig O cfg (O.parse (processStringReplacements html cfg))
      { extractMetadata O (O.parse (processStringReplacements html cfg)) {} with
        singlePageUrl := extractSinglePageUrl O
          (O.parse (processStringReplacements html cfg)) cfg,
        nextPageUrl := extractNextPageUrl O
          (O.parse (processStringReplacements html cfg)) cfg }).2
  rw [hp, h2, h1]
  exact ⟨rfl, rfl⟩

/-- Entering the fallback with no content and a cleared success flag, the
readability step leaves `success` true exactly when it produced content. -/
theorem applyReadability_success_content
    (r : Except String (Option ReadabilityArticle)) (st : ExtractionState)
    (hc : st.content = none) (hs : st.success = false) :
    (applyReadability r st).success = (applyReadability r st).content.isSome := by
  cases r with
  | error m => simp [applyReadability, hc, hs]
  | ok a =>
    cases a with
    | none => simp [applyReadability, hc, hs]
    | some article =>
      simp only [applyReadability]
      repeat' split
      all_goals simp_all

/-- After the fallback-and-post-process tail, `success` is true exactly
when a body root exists, provided the incoming success flag was still
cleared (as it is whenever the rule engine did not set content). -/
theorem processFallbackAndPost_success (O : Oracles)
    (opts : ContentExtractorOptions) (url : String) (st3 : ExtractionState)
    (doc2 : Doc) (hs : st3.success = false) :
    (processFallbackAndPost O opts url st3 doc2).success
      = (processFallbackAndPost O opts url st3 doc2).content.isSome := by
  simp only [processFallbackAndPost]
  cases hc : st3.content with
  | some c =>
    obtain ⟨c2, d2, h2⟩ := postProcess_shape O opts url st3
    simp only [hc, Option.isNone_some, Bool.false_eq_true, if_neg, ite_false,
      Option.isSome_some, if_pos, ite_true]
    have hps := postProcess_content_isSome O opts url st3
    simp only [hc, Option.isSome_some] at hps
    simp [hc, hps]
  | none =>
    have hrs := applyReadability_success_content (O.readability doc2) st3 hc hs
    simp only [hc, Option.isNone_none, ite_true]
    cases hsome : (applyReadability (O.readability doc2) st3).content.isSome with
    | true =>
      have hps := postProcess_content_isSome O opts url
        (applyReadability (O.readability doc2) st3)
      simp [hsome, hps]
    | false =>
      simp [hsome, hrs]

/-- C6: at completion of `process` the extraction state holds at most one
body root (an `Option` field), `success` is true exactly when a body root
was produced by the rule engine or the readability fallback, and the
result record still carries the remaining metadata (with empty html) when
no body root exists. -/
theorem c6_success_iff_body_root (O : Oracles)
    (opts : ContentExtractorOptions) (html url : String)
    (cfgO : Option SiteConfig) :
    ((process O opts html url cfgO).success
      = (process O opts html url cfgO).content.isSome) ∧
    ((getResult (process O opts html url cfgO)).success
      = (process O opts html url cfgO).success) ∧
    ((getResult (process O opts html url cfgO)).title
      = (process O opts html url cfgO).title.getD "") ∧
    ((getResult (process O opts html url cfgO)).date
      = (process O opts html url cfgO).date) ∧
    ((getResult (process O opts html url cfgO)).authors
      = (process O opts html url cfgO).authors) ∧
    ((getResult (process O opts html url cfgO)).language
      = (process O opts html url cfgO).language) ∧
    ((getResult (process O opts html url cfgO)).image
      = (process O opts html url cfgO).image) ∧
    ((getResult (process O opts html url cfgO)).nextPageUrl
      = (process O opts html url cfgO).nextPageUrl) ∧
    ((process O opts html url cfgO).content = none →
      (getResult (process O opts html url cfgO)).html = "") := by
  refine ⟨?_, rfl, rfl, rfl, rfl, rfl, rfl, rfl, ?_⟩
  · cases cfgO with
    | none =>
      have hp : process O opts html url none
          = processFallbackAndPost O opts url
              (extractMetadata O (O.parse html) {}) (O.parse html) := rfl
      obtain ⟨t, l, i, d, a, hm⟩ := extractMetadata_shape O (O.parse html) {}
      have hs : (extractMetadata O (O.parse html) ({} : ExtractionState)).success
          = false := by rw [hm]
      rw [hp]
      exact processFallbackAndPost_success O opts url _ _ hs
    | some cfg =>
      have hp : process O opts html url (some cfg)
          = processFallbackAndPost O opts url
              (applySiteConfig O cfg
                (O.parse (processStringReplacements html cfg))
                { extractMetadata O
                    (O.parse (processStringReplacements html cfg)) {} with
                  singlePageUrl := extractSinglePageUrl O
                    (O.parse (processStringReplacements html cfg)) cfg,
                  nextPageUrl := extractNextPageUrl O
                    (O.parse (processStringReplacements html cfg)) cfg }).1
              (applySiteConfig O cfg
                (O.parse (processStringReplacements html cfg))
                { extractMetadata O
                    (O.parse (processStringReplacements html cfg)) {} with
                  singlePageUrl := extractSinglePageUrl O
                    (O.parse (processStringReplacements html cfg)) cfg,
                  nextPageUrl := extractNextPageUrl O
                    (O.parse (processStringReplacements html cfg)) cfg }).2 :=
        rfl
      obtain ⟨t0, l0, i0, d0, a0, hm⟩ := extractMetadata_shape O
        (O.parse (processStringReplacements html cfg)) {}
      obtain ⟨t, b, c, hsc⟩ := applySiteConfig_shape O cfg
        (O.parse (processStringReplacements html cfg))
        { extractMetadata O (O.parse (processStringReplacements html cfg)) {}
          with
          singlePageUrl := extractSinglePageUrl O
            (O.parse (processStringReplacements html cfg)) cfg,
          nextPageUrl := extractNextPageUrl O
            (O.parse (processStringReplacements html cfg)) cfg }
      have hs : (applySiteConfig O cfg
          (O.parse (processStringReplacements html cfg))
          { extractMetadata O (O.parse (processStringReplacements html cfg)) {}
            with
            singlePageUrl := extractSinglePageUrl O
              (O.parse (processStringReplacements html cfg)) cfg,
            nextPageUrl := extractNextPageUrl O
              (O.parse (processStringReplacements html cfg)) cfg }).1.success
          = false := by
        rw [hsc]
        show (extractMetadata O
          (O.parse (processStringReplacements html cfg)) {}).success = false
        rw [hm]
      rw [hp]
      exact processFallbackAndPost_success O opts url _ _ hs
  · intro h
    simp [getResult, getContentAsHtml, h]

def c6O : Oracles :=
  { parse := fun _ => []
    xeval := tagEval
    jsonParse := fun _ => .error "none"
    readability := fun _ => .ok none
    resolveUrl := fun _ _ => none
    purify := fun cs => .ok cs
    formatDate := fun d => .ok d }

theorem c6_witness :
    (process c6O {} "<html></html>" "https://x.test/a" none).content = none ∧
    (process c6O {} "<html></html>" "https://x.test/a" none).success
      = (process c6O {} "<html></html>" "https://x.test/a" none).content.isSome ∧
    (getResult (process c6O {} "<html></html>" "https://x.test/a" none)).html
      = "" := by
  have h := c6_success_iff_body_root c6O {} "<html></html>" "https://x.test/a"
    none
  exact ⟨rfl, h.1, h.2.2.2.2.2.2.2.2 rfl⟩

/-- A title expression that the loop skips: evaluation threw, matched no
node, or (impossible with a live evaluator) its first reference dangles. -/
def titleRuleSkipped (O : Oracles) (doc : Doc) (p : String) : Prop :=
  match O.xeval p doc with
  | .error _ => True
  | .ok [] => True
  | .ok (k :: _) => findByIdList k doc = none

/-- The first title expression with a matched node wins and overwrites the
title with its first node's `textContent || null`, whatever the incoming
state held. -/
theorem applyTitleRules_wins (O : Oracles) (doc : Doc) :
    ∀ (pre : List String) (pat : String) (post : List String)
      (st : ExtractionState) (k : Nat) (ks : List Nat) (n : DNode),
      (∀ p ∈ pre, titleRuleSkipped O doc p) →
      O.xeval pat doc = .ok (k :: ks) →
      findByIdList k doc = some n →
      applyTitleRules O doc (pre ++ pat :: post) st
        = { st with title := jsOrNull (nodeText n) } := by
  intro pre
  induction pre with
  | nil =>
    intro pat post st k ks n _ hev hf
    simp [applyTitleRules, hev, hf]
  | cons p pre ih =>
    intro pat post st k ks n hskip hev hf
    have hp := hskip p (List.mem_cons_self ..)
    have hrest : ∀ q ∈ pre, titleRuleSkipped O doc q :=
      fun q hq => hskip q (List.mem_cons_of_mem _ hq)
    rw [List.cons_append]
    cases he : O.xeval p doc with
    | error m =>
      simp only [applyTitleRules, he]
      exact ih pat post st k ks n hrest hev hf
    | ok l =>
      cases l with
      | nil =>
        simp only [applyTitleRules, he]
        exact ih pat post st k ks n hrest hev hf
      | cons k0 l' =>
        simp only [titleRuleSkipped, he] at hp
        simp only [applyTitleRules, he, hp]
        exact ih pat post st k ks n hrest hev hf

/-- The title of the state returned by `applySiteConfig` is the one the
title loop computed. -/
theorem applySiteConfig_title (O : Oracles) (cfg : SiteConfig) (doc : Doc)
    (st : ExtractionState) :
    (applySiteConfig O cfg doc st).1.title
      = (applyTitleRules O doc cfg.title st).title := by
  obtain ⟨b, hb⟩ := applyNativeAdRules_shape O doc cfg.native_ad_clue
    (applyTitleRules O doc cfg.title st)
  simp only [applySiteConfig, hb]
  cases applyBodyRules O
    (applyStripRules O cfg.strip (applyWrapInRules O cfg.wrap_in doc))
    cfg.body <;> rfl

/-- A truthy title survives the readability fallback untouched. -/
theorem applyReadability_title
    (r : Except String (Option ReadabilityArticle)) (st : ExtractionState)
    (h : jsTruthy st.title = true) :
    (applyReadability r st).title = st.title := by
  cases r with
  | error m => rfl
  | ok a =>
    cases a with
    | none => rfl
    | some article =>
      simp only [applyReadability, h]
      repeat' split
      all_goals simp_all

/-- A truthy title survives the whole fallback-and-post-process tail. -/
theorem processFallbackAndPost_title (O : Oracles)
    (opts : ContentExtractorOptions) (url : String) (st3 : ExtractionState)
    (doc2 : Doc) (h : jsTruthy st3.title = true) :
    (processFallbackAndPost O opts url st3 doc2).title = st3.title := by
  simp only [processFallbackAndPost]
  cases hn : st3.content.isNone with
  | true =>
    have hrt := applyReadability_title (O.readability doc2) st3 h
    obtain ⟨c2, d2, h2⟩ := postProcess_shape O opts url
      (applyReadability (O.readability doc2) st3)
    simp only [hn, ite_true]
    split
    · rw [h2]
      exact hrt
    · exact hrt
  | false =>
    obtain ⟨c2, d2, h2⟩ := postProcess_shape O opts url st3
    simp only [hn, Bool.false_eq_true, ite_false]
    split
    · rw [h2]
    · rfl

/-- C1 (amended): if some rule-set `title` expression matches at least one
node and the first matching expression's first node has non-empty text
content, the final extracted title equals that text content, overwriting
any title previously derived from the document `<title>`, Open Graph or
JSON-LD metadata.  (With empty text content the stored title becomes null
and the readability fallback may refill it, see the counterexample.) -/
theorem c1_title_rule_overwrites_metadata (O : Oracles)
    (opts : ContentExtractorOptions) (html url : String) (cfg : SiteConfig)
    (pre : List String) (pat : String) (post : List String) (k : Nat)
    (ks : List Nat) (n : DNode)
    (hsplit : cfg.title = pre ++ pat :: post)
    (hskip : ∀ p ∈ pre,
      titleRuleSkipped O (O.parse (processStringReplacements html cfg)) p)
    (hev : O.xeval pat (O.parse (processStringReplacements html cfg))
      = .ok (k :: ks))
    (hf : findByIdList k (O.parse (processStringReplacements html cfg))
      = some n)
    (htc : nodeText n ≠ "") :
    (getResult (process O opts html url (some cfg))).title = nodeText n := by
  have hp : process O opts html url (some cfg)
      = processFallbackAndPost O opts url
          (applySiteConfig O cfg (O.parse (processStringReplacements html cfg))
            { extractMetadata O (O.parse (processStringReplacements html cfg))
                {} with
              singlePageUrl := extractSinglePageUrl O
                (O.parse (processStringReplacements html cfg)) cfg,
              nextPageUrl := extractNextPageUrl O
                (O.parse (processStringReplacements html cfg)) cfg }).1
          (applySiteConfig O cfg (O.parse (processStringReplacements html cfg))
            { extractMetadata O (O.parse (processStringReplacements html cfg))
                {} with
              singlePageUrl := extractSinglePageUrl O
                (O.parse (processStringReplacements html cfg)) cfg,
              nextPageUrl := extractNextPageUrl O
                (O.parse (processStringReplacements html cfg)) cfg }).2 := rfl
  have ht3 : (applySiteConfig O cfg
      (O.parse (processStringReplacements html cfg))
      { extractMetadata O (O.parse (processStringReplacements html cfg)) {}
        with
        singlePageUrl := extractSinglePageUrl O
          (O.parse (processStringReplacements html cfg)) cfg,
        nextPageUrl := extractNextPageUrl O
          (O.parse (processStringReplacements html cfg)) cfg }).1.title
      = some (nodeText n) := by
    rw [applySiteConfig_title, hsplit,
      applyTitleRules_wins O _ pre pat post _ k ks n hskip hev hf]
    simp [jsOrNull, htc]
  have htruthy : jsTruthy ((applySiteConfig O cfg
      (O.parse (processStringReplacements html cfg))
      { extractMetadata O (O.parse (processStringReplacements html cfg)) {}
        with
        singlePageUrl := extractSinglePageUrl O
          (O.parse (processStringReplacements html cfg)) cfg,
        nextPageUrl := extractNextPageUrl O
          (O.parse (processStringReplacements html cfg)) cfg }).1.title)
      = true := by
    rw [ht3]
    simp [jsTruthy, htc]
  have := processFallbackAndPost_title O opts url _
    (applySiteConfig O cfg (O.parse (processStringReplacements html cfg))
      { extractMetadata O (O.parse (processStringReplacements html cfg)) {}
        with
        singlePageUrl := extractSinglePageUrl O
          (O.parse (processStringReplacements html cfg)) cfg,
        nextPageUrl := extractNextPageUrl O
          (O.parse (processStringReplacements html cfg)) cfg }).2 htruthy
  rw [hp]
  show ((processFallbackAndPost O opts url _ _).title).getD "" = nodeText n
  rw [this, ht3]
  rfl

def c1WDoc : Doc :=
  [DNode.elem 1 "html" []
    [DNode.elem 2 "meta" [("property", "og:title"), ("content", "OG Title")] [],
     DNode.elem 3 "h1" [] [DNode.text "Rule Title"]]]

def c1WO : Oracles :=
  { parse := fun _ => c1WDoc
    xeval := tagEval
    jsonParse := fun _ => .error "none"
    readability := fun _ => .ok none
    resolveUrl := fun _ _ => none
    purify := fun cs => .ok cs
    formatDate := fun d => .ok d }

theorem c1_witness :
    (process c1WO {} "x" "https://x.test/a" none).title = some "OG Title" ∧
    (getResult (process c1WO {} "x" "https://x.test/a"
      (some { title := ["h1"] }))).title = "Rule Title" := by
  constructor
  · rfl
  · exact c1_title_rule_overwrites_metadata c1WO {} "x" "https://x.test/a"
      { title := ["h1"] } [] "h1" [] 3 []
      (DNode.elem 3 "h1" [] [DNode.text "Rule Title"])
      rfl (fun p hp => absurd hp (List.not_mem_nil p)) rfl rfl (by decide)

def c1Doc : Doc := [DNode.elem 1 "html" [] [DNode.elem 2 "h1" [] []]]

def c1O : Oracles :=
  { parse := fun _ => c1Doc
    xeval := tagEval
    jsonParse := fun _ => .error "none"
    readability := fun _ => .ok (some
      { title := some "Readability Title"
        content := [DNode.elem 9 "p" [] [DNode.text "body"]]
        publishedTime := none
        byline := none })
    resolveUrl := fun _ _ => none
    purify := fun cs => .ok cs
    formatDate := fun d => .ok d }

/-- The claim as frozen is false on the code: here the only title rule
matches the (empty) `h1`, so the claim demands a final title equal to its
text content `""`; but the code stores `textContent || null`, the
readability fallback sees a falsy title and refills it, and the final
title is "Readability Title". -/
theorem c1_counterexample :
    tagEval "h1" c1Doc = .ok [2] ∧
    nodeText (DNode.elem 2 "h1" [] []) = "" ∧
    (getResult (process c1O {} "x" "https://x.test/a"
      (some { title := ["h1"] }))).title = "Readability Title" ∧
    ("Readability Title" : String) ≠ "" := by
  exact ⟨rfl, rfl, rfl, by decide⟩

/-- The site config with every path-expression list emptied (string
replacements and conditional gates kept). -/
def ruleFreeConfig (cfg : SiteConfig) : SiteConfig :=
  { cfg with title := [], body := [], strip := [], native_ad_clue := [],
             next_page_link := [], single_page_link := [], wrap_in := [] }

/- With an evaluator that always throws, every rule loop is an identity:
all errors are caught at the per-expression `try`/`catch`. -/

theorem allErr_title (O : Oracles) (m : String)
    (hO : ∀ p d, O.xeval p d = .error m) (doc : Doc) :
    ∀ (rules : List String) (st : ExtractionState),
      applyTitleRules O doc rules st = st := by
  intro rules
  induction rules with
  | nil => intro st; rfl
  | cons pat rest ih =>
    intro st
    simp only [applyTitleRules, hO]
    exact ih st

theorem allErr_nativeAd (O : Oracles) (m : String)
    (hO : ∀ p d, O.xeval p d = .error m) (doc : Doc) :
    ∀ (rules : List String) (st : ExtractionState),
      applyNativeAdRules O doc rules st = st := by
  intro rules
  induction rules with
  | nil => intro st; rfl
  | cons pat rest ih =>
    intro st
    simp only [applyNativeAdRules, hO]
    exact ih st

theorem allErr_wrap (O : Oracles) (m : String)
    (hO : ∀ p d, O.xeval p d = .error m) :
    ∀ (entries : List (String × String)) (d : Doc),
      applyWrapInRules O entries d = d := by
  intro entries
  induction entries with
  | nil => intro d; rfl
  | cons e rest ih =>
    intro d
    have he : applyWrapEntry O d e = d := by
      unfold applyWrapEntry
      split
      · rfl
      · simp [hO]
    unfold applyWrapInRules at ih ⊢
    rw [List.foldl_cons, he]
    exact ih d

theorem allErr_strip (O : Oracles) (m : String)
    (hO : ∀ p d, O.xeval p d = .error m) :
    ∀ (rules : List String) (d : Doc), applyStripRules O rules d = d := by
  intro rules
  induction rules with
  | nil => intro d; rfl
  | cons pat rest ih =>
    intro d
    unfold applyStripRules at ih ⊢
    rw [List.foldl_cons]
    have : (match O.xeval pat d with
      | .error _ => d
      | .ok ks => removeIdsList ks d) = d := by rw [hO]
    rw [this]
    exact ih d

theorem allErr_body (O : Oracles) (m : String)
    (hO : ∀ p d, O.xeval p d = .error m) (d : Doc) :
    ∀ rules : List String, applyBodyRules O d rules = none := by
  intro rules
  induction rules with
  | nil => rfl
  | cons pat rest ih =>
    simp only [applyBodyRules, hO]
    exact ih

theorem allErr_link (O : Oracles) (m : String)
    (hO : ∀ p d, O.xeval p d = .error m) (doc : Doc)
    (conds : List (String × String)) :
    ∀ (pats : List String) (acc : Option String),
      extractLinkLoop O doc conds pats acc = acc := by
  intro pats
  induction pats with
  | nil => intro acc; rfl
  | cons pat rest ih =>
    intro acc
    simp only [extractLinkLoop, hO]
    cases conds.lookup pat with
    | none => simp only []; exact ih acc
    | some cond =>
      by_cases hc : cond = ""
      · simp only [hc, if_pos rfl, if_neg, Bool.false_eq_true, ite_false]
        exact ih acc
      · simp only [if_neg hc, hO, if_pos, ite_true]
        exact ih acc

theorem allErr_applySiteConfig (O : Oracles) (m : String)
    (hO : ∀ p d, O.xeval p d = .error m) (cfg : SiteConfig) (doc : Doc)
    (st : ExtractionState) :
    applySiteConfig O cfg doc st = (st, doc) := by
  simp only [applySiteConfig, allErr_title O m hO, allErr_nativeAd O m hO,
    allErr_wrap O m hO, allErr_strip O m hO, allErr_body O m hO]

/-- C5: an error thrown while evaluating any single path expression
(title, native-ad clue, wrap, strip, body, pagination-link) is caught and
treated as "no match" for that expression only — the remaining
expressions still run — and no evaluator exception escapes `process`:
with an evaluator that always throws, `process` returns normally and
behaves exactly as if the config had no path expressions at all. -/
theorem c5_expression_errors_isolated :
    (∀ (O : Oracles) (doc : Doc) (pat : String) (rest : List String)
       (st : ExtractionState) (m : String), O.xeval pat doc = .error m →
       applyTitleRules O doc (pat :: rest) st
         = applyTitleRules O doc rest st) ∧
    (∀ (O : Oracles) (doc : Doc) (pat : String) (rest : List String)
       (st : ExtractionState) (m : String), O.xeval pat doc = .error m →
       applyNativeAdRules O doc (pat :: rest) st
         = applyNativeAdRules O doc rest st) ∧
    (∀ (O : Oracles) (d : Doc) (pat : String) (rest : List String)
       (m : String), O.xeval pat d = .error m →
       applyBodyRules O d (pat :: rest) = applyBodyRules O d rest) ∧
    (∀ (O : Oracles) (d : Doc) (pat : String) (rest : List String)
       (m : String), O.xeval pat d = .error m →
       applyStripRules O (pat :: rest) d = applyStripRules O rest d) ∧
    (∀ (O : Oracles) (d : Doc) (tag pat : String)
       (entries : List (String × String)) (m : String),
       O.xeval pat d = .error m →
       applyWrapInRules O ((tag, pat) :: entries) d
         = applyWrapInRules O entries d) ∧
    (∀ (O : Oracles) (doc : Doc) (conds : List (String × String))
       (pat : String) (rest : List String) (acc : Option String) (m : String),
       conds.lookup pat = none → O.xeval pat doc = .error m →
       extractLinkLoop O doc conds (pat :: rest) acc
         = extractLinkLoop O doc conds rest acc) ∧
    (∀ (O : Oracles) (opts : ContentExtractorOptions) (html url : String)
       (cfg : SiteConfig) (m : String),
       (∀ p d, O.xeval p d = Except.error m) →
       process O opts html url (some cfg)
         = process O opts html url (some (ruleFreeConfig cfg))) := by
  refine ⟨?_, ?_, ?_, ?_, ?_, ?_, ?_⟩
  · intro O doc pat rest st m hev
    simp [applyTitleRules, hev]
  · intro O doc pat rest st m hev
    simp [applyNativeAdRules, hev]
  · intro O d pat rest m hev
    simp [applyBodyRules, hev]
  · intro O d pat rest m hev
    unfold applyStripRules
    rw [List.foldl_cons]
    have : (match O.xeval pat d with
      | .error _ => d
      | .ok ks => removeIdsList ks d) = d := by rw [hev]
    rw [this]
  · intro O d tag pat entries m hev
    unfold applyWrapInRules
    rw [List.foldl_cons]
    have : applyWrapEntry O d (tag, pat) = d := by
      unfold applyWrapEntry
      split
      · rfl
      · simp [hev]
    rw [this]
  · intro O doc conds pat rest acc m hl hev
    simp [extractLinkLoop, hl, hev]
  · intro O opts html url cfg m hO
    have hL : process O opts html url (some cfg)
        = processFallbackAndPost O opts url
            { extractMetadata O
                (O.parse (processStringReplacements html cfg)) {} with
              singlePageUrl := extractSinglePageUrl O
                (O.parse (processStringReplacements html cfg)) cfg,
              nextPageUrl := extractNextPageUrl O
                (O.parse (processStringReplacements html cfg)) cfg }
            (O.parse (processStringReplacements html cfg)) := by
      have hsc := allErr_applySiteConfig O m hO cfg
        (O.parse (processStringReplacements html cfg))
        { extractMetadata O (O.parse (processStringReplacements html cfg)) {}
          with
          singlePageUrl := extractSinglePageUrl O
            (O.parse (processStringReplacements html cfg)) cfg,
          nextPageUrl := extractNextPageUrl O
            (O.parse (processStringReplacements html cfg)) cfg }
      show processFallbackAndPost O opts url
          (applySiteConfig O cfg (O.parse (processStringReplacements html cfg))
            { extractMetadata O
                (O.parse (processStringReplacements html cfg)) {} with
              singlePageUrl := extractSinglePageUrl O
                (O.parse (processStringReplacements html cfg)) cfg,
              nextPageUrl := extractNextPageUrl O
                (O.parse (processStringReplacements html cfg)) cfg }).1
          (applySiteConfig O cfg (O.parse (processStringReplacements html cfg))
            { extractMetadata O
                (O.parse (processStringReplacements html cfg)) {} with
              singlePageUrl := extractSinglePageUrl O
                (O.parse (processStringReplacements html cfg)) cfg,
              nextPageUrl := extractNextPageUrl O
                (O.parse (processStringReplacements html cfg)) cfg }).2
        = processFallbackAndPost O opts url
            { extractMetadata O
                (O.parse (processStringReplacements html cfg)) {} with
              singlePageUrl := extractSinglePageUrl O
                (O.parse (processStringReplacements html cfg)) cfg,
              nextPageUrl := extractNextPageUrl O
                (O.parse (processStringReplacements html cfg)) cfg }
            (O.parse (processStringReplacements html cfg))
      rw [hsc]
    have hR : process O opts html url (some (ruleFreeConfig cfg))
        = processFallbackAndPost O opts url
            { extractMetadata O
                (O.parse (processStringReplacements html cfg)) {} with
              singlePageUrl := none, nextPageUrl := none }
            (O.parse (processStringReplacements html cfg)) := by
      have hsc := allErr_applySiteConfig O m hO (ruleFreeConfig cfg)
        (O.parse (processStringReplacements html cfg))
        { extractMetadata O (O.parse (processStringReplacements html cfg)) {}
          with
          singlePageUrl := none, nextPageUrl := none }
      show processFallbackAndPost O opts url
          (applySiteConfig O (ruleFreeConfig cfg)
            (O.parse (processStringReplacements html cfg))
            { extractMetadata O
                (O.parse (processStringReplacements html cfg)) {} with
              singlePageUrl := none, nextPageUrl := none }).1
          (applySiteConfig O (ruleFreeConfig cfg)
            (O.parse (processStringReplacements html cfg))
            { extractMetadata O
                (O.parse (processStringReplacements html cfg)) {} with
              singlePageUrl := none, nextPageUrl := none }).2
        = processFallbackAndPost O opts url
            { extractMetadata O
                (O.parse (processStringReplacements html cfg)) {} with
              singlePageUrl := none, nextPageUrl := none }
            (O.parse (processStringReplacements html cfg))
      rw [hsc]
    rw [hL, hR, extractSinglePageUrl, extractNextPageUrl,
      allErr_link O m hO _ _, allErr_link O m hO _ _]

def c5O : Oracles :=
  { parse := fun _ => c1WDoc
    xeval := fun pat d => if pat = "bad" then .error "boom" else tagEval pat d
    jsonParse := fun _ => .error "none"
    readability := fun _ => .ok none
    resolveUrl := fun _ _ => none
    purify := fun cs => .ok cs
    formatDate := fun d => .ok d }

def c5E : Oracles :=
  { parse := fun _ => c1WDoc
    xeval := fun _ _ => .error "boom"
    jsonParse := fun _ => .error "none"
    readability := fun _ => .ok none
    resolveUrl := fun _ _ => none
    purify := fun cs => .ok cs
    formatDate := fun d => .ok d }

theorem c5_witness :
    applyTitleRules c5O c1WDoc ["bad", "h1"] {}
      = applyTitleRules c5O c1WDoc ["h1"] {} ∧
    (applyTitleRules c5O c1WDoc ["bad", "h1"] {}).title = some "Rule Title" ∧
    applyStripRules c5O ["bad"] c1WDoc = applyStripRules c5O [] c1WDoc ∧
    process c5E {} "x" "https://x.test/a"
        (some { title := ["h1"], strip := ["div"] })
      = process c5E {} "x" "https://x.test/a"
        (some (ruleFreeConfig { title := ["h1"], strip := ["div"] })) := by
  refine ⟨?_, ?_, ?_, ?_⟩
  · exact c5_expression_errors_isolated.1 c5O c1WDoc "bad" ["h1"] {} "boom" rfl
  · rw [c5_expression_errors_isolated.1 c5O c1WDoc "bad" ["h1"] {} "boom" rfl]
    rfl
  · exact c5_expression_errors_isolated.2.2.2.1 c5O c1WDoc "bad" [] "boom" rfl
  · exact c5_expression_errors_isolated.2.2.2.2.2.2 c5E {} "x"
      "https://x.test/a" { title := ["h1"], strip := ["div"] } "boom"
      (fun p d => rfl)

theorem getAttr_setAttr_self (a : List (String × String)) (k v : String) :
    getAttr (setAttr a k v) k = some v := by
  induction a with
  | nil => simp [setAttr, getAttr]
  | cons kv rest ih =>
    by_cases h : kv.1 = k
    · simp [setAttr, getAttr, h]
    · simp [setAttr, getAttr, h, ih]

theorem getAttr_setAttr_other (a : List (String × String)) (k v k' : String)
    (h : k' ≠ k) : getAttr (setAttr a k v) k' = getAttr a k' := by
  induction a with
  | nil => simp [setAttr, getAttr, if_neg (Ne.symm h)]
  | cons kv rest ih =>
    by_cases hk : kv.1 = k
    · simp [setAttr, getAttr, hk, Ne.symm h]
    · simp [setAttr, getAttr, hk, ih]

theorem getAttr_cons (kv : String × String) (rest : List (String × String))
    (name : String) :
    getAttr (kv :: rest) name
      = if kv.1 = name then some kv.2 else getAttr rest name := rfl

theorem removeAttr_cons (kv : String × String)
    (rest : List (String × String)) (k : String) :
    removeAttr (kv :: rest) k
      = if kv.1 = k then removeAttr rest k else kv :: removeAttr rest k := by
  unfold removeAttr
  rw [List.filter_cons]
  by_cases h : kv.1 = k <;> simp [h]

theorem getAttr_removeAttr_self (a : List (String × String)) (k : String) :
    getAttr (removeAttr a k) k = none := by
  induction a with
  | nil => rfl
  | cons kv rest ih =>
    rw [removeAttr_cons]
    by_cases h : kv.1 = k
    · rw [if_pos h]
      exact ih
    · rw [if_neg h, getAttr_cons, if_neg h]
      exact ih

theorem getAttr_removeAttr_other (a : List (String × String)) (k k' : String)
    (h : k' ≠ k) : getAttr (removeAttr a k) k' = getAttr a k' := by
  induction a with
  | nil => rfl
  | cons kv rest ih =>
    rw [removeAttr_cons]
    by_cases h1 : kv.1 = k
    · have hne : kv.1 ≠ k' := by rw [h1]; exact Ne.symm h
      rw [if_pos h1, ih, getAttr_cons, if_neg hne]
    · rw [if_neg h1, getAttr_cons, getAttr_cons]
      by_cases h2 : kv.1 = k'
      · rw [if_pos h2, if_pos h2]
      · rw [if_neg h2, if_neg h2]
        exact ih

/-- The image-attribute absolutization only writes `src` and `srcset`. -/
theorem absolutizeAttrs_img_other (resolve : String → String → Option String)
    (base : String) (a : List (String × String)) (k : String)
    (h1 : k ≠ "src") (h2 : k ≠ "srcset") :
    getAttr (absolutizeAttrs resolve base "img" a) k = getAttr a k := by
  have hsrc : getAttr (absolutizeImgSrc resolve base a) k = getAttr a k := by
    unfold absolutizeImgSrc
    cases hx : getAttr a "src" with
    | none => rfl
    | some s =>
      by_cases hs : s = ""
      · simp [hs]
      · simp [hs, getAttr_setAttr_other _ "src" _ k h1]
  have hsrcset : ∀ x : List (String × String),
      getAttr (absolutizeImgSrcset resolve base x) k = getAttr x k := by
    intro x
    unfold absolutizeImgSrcset
    cases hx : getAttr x "srcset" with
    | none => rfl
    | some s =>
      by_cases hs : s = ""
      · simp [hs]
      · simp [hs, getAttr_setAttr_other _ "srcset" _ k h2]
  show getAttr (if ("img" : String) = "a" then _ else
    if ("img" : String) = "img" then
      absolutizeImgSrcset resolve base (absolutizeImgSrc resolve base a)
    else a) k = getAttr a k
  rw [if_neg (by decide), if_pos rfl, hsrcset, hsrc]

/-- A deferred attribute not ending in `src` only writes `srcset` and
removes itself. -/
theorem fixLazyOne_srcset_only (a : List (String × String)) (attr k : String)
    (hatt : strEndsWith attr "src" = false) (hk : k ≠ attr) (h2 : k ≠ "srcset") :
    getAttr (fixLazyOne a attr) k = getAttr a k := by
  simp only [fixLazyOne]
  cases hv : getAttr a attr with
  | none => rfl
  | some w =>
    by_cases hw : w = ""
    · simp [hw]
    · show getAttr
          (if w ≠ "" then
            removeAttr
              (if strEndsWith attr "srcset" = true then
                setAttr (if strEndsWith attr "src" = true
                  then setAttr a "src" w else a) "srcset" w
              else if strEndsWith attr "src" = true
                then setAttr a "src" w else a)
              attr
          else a) k = getAttr a k
      rw [if_pos hw, hatt]
      cases hss : strEndsWith attr "srcset" with
      | false =>
        rw [if_neg (by simp), if_neg (by simp),
          getAttr_removeAttr_other _ _ _ hk]
      | true =>
        rw [if_pos rfl, if_neg (by simp), getAttr_removeAttr_other _ _ _ hk,
          getAttr_setAttr_other _ _ _ _ h2]

/-- A deferred attribute with no value present is a no-op. -/
theorem fixLazyOne_skip (a : List (String × String)) (attr : String)
    (h : getAttr a attr = none) : fixLazyOne a attr = a := by
  unfold fixLazyOne
  rw [h]

/-- C7 (amended): an image carrying `data-src` (with no other src-flavored
deferred attribute) and a placeholder `src` ends post-processing with
`src` equal to the `data-src` value **verbatim** — not absolutized, since
URL absolutization runs before lazy-image repair — and with the
`data-src` attribute removed. -/
theorem c7_lazy_image_promoted_verbatim
    (resolve : String → String → Option String) (base : String)
    (attrs : List (String × String)) (v : String)
    (hv : getAttr attrs "data-src" = some v) (hv' : v ≠ "")
    (h1 : getAttr attrs "data-lazy-src" = none)
    (h2 : getAttr attrs "data-original" = none)
    (h3 : getAttr attrs "loading-src" = none) :
    getAttr (fixLazyImgAttrs (absolutizeAttrs resolve base "img" attrs)) "src"
      = some v ∧
    getAttr (fixLazyImgAttrs (absolutizeAttrs resolve base "img" attrs))
      "data-src" = none := by
  set A := absolutizeAttrs resolve base "img" attrs with hA
  have hAv : getAttr A "data-src" = some v := by
    rw [hA, absolutizeAttrs_img_other _ _ _ _ (by decide) (by decide), hv]
  have hA1 : getAttr A "data-lazy-src" = none := by
    rw [hA, absolutizeAttrs_img_other _ _ _ _ (by decide) (by decide), h1]
  have hA2 : getAttr A "data-original" = none := by
    rw [hA, absolutizeAttrs_img_other _ _ _ _ (by decide) (by decide), h2]
  have hA3 : getAttr A "loading-src" = none := by
    rw [hA, absolutizeAttrs_img_other _ _ _ _ (by decide) (by decide), h3]
  have hX1 : fixLazyOne A "data-src" = removeAttr (setAttr A "src" v)
      "data-src" := by
    unfold fixLazyOne
    rw [hAv]
    simp [hv', (by decide : strEndsWith "data-src" "src" = true),
      (by decide : strEndsWith "data-src" "srcset" = false)]
  have hX1src : getAttr (removeAttr (setAttr A "src" v) "data-src") "src"
      = some v := by
    rw [getAttr_removeAttr_other _ _ _ (by decide), getAttr_setAttr_self]
  have hX1d : getAttr (removeAttr (setAttr A "src" v) "data-src") "data-src"
      = none := getAttr_removeAttr_self _ _
  have hX1l : getAttr (removeAttr (setAttr A "src" v) "data-src")
      "data-lazy-src" = none := by
    rw [getAttr_removeAttr_other _ _ _ (by decide),
      getAttr_setAttr_other _ _ _ _ (by decide), hA1]
  have hX1o : getAttr (removeAttr (setAttr A "src" v) "data-src")
      "data-original" = none := by
    rw [getAttr_removeAttr_other _ _ _ (by decide),
      getAttr_setAttr_other _ _ _ _ (by decide), hA2]
  have hX1ls : getAttr (removeAttr (setAttr A "src" v) "data-src")
      "loading-src" = none := by
    rw [getAttr_removeAttr_other _ _ _ (by decide),
      getAttr_setAttr_other _ _ _ _ (by decide), hA3]
  -- run the six-attribute fold
  have hfold : lazyAttrs.foldl fixLazyOne A
      = fixLazyOne (fixLazyOne (removeAttr (setAttr A "src" v) "data-src")
          "data-srcset") "data-lazy-srcset" := by
    show List.foldl fixLazyOne A
      ["data-src", "data-lazy-src", "data-original", "data-srcset",
       "data-lazy-srcset", "loading-src"] = _
    simp only [List.foldl_cons, List.foldl_nil]
    rw [hX1, fixLazyOne_skip _ "data-lazy-src" hX1l,
      fixLazyOne_skip _ "data-original" hX1o]
    apply fixLazyOne_skip
    rw [fixLazyOne_srcset_only _ _ _ (by decide) (by decide) (by decide),
      fixLazyOne_srcset_only _ _ _ (by decide) (by decide) (by decide)]
    exact hX1ls
  have hfsrc : getAttr (lazyAttrs.foldl fixLazyOne A) "src" = some v := by
    rw [hfold,
      fixLazyOne_srcset_only _ _ _ (by decide) (by decide) (by decide),
      fixLazyOne_srcset_only _ _ _ (by decide) (by decide) (by decide)]
    exact hX1src
  have hfd : getAttr (lazyAttrs.foldl fixLazyOne A) "data-src" = none := by
    rw [hfold,
      fixLazyOne_srcset_only _ _ _ (by decide) (by decide) (by decide),
      fixLazyOne_srcset_only _ _ _ (by decide) (by decide) (by decide)]
    exact hX1d
  have hfo : getAttr (lazyAttrs.foldl fixLazyOne A) "data-original" = none := by
    rw [hfold,
      fixLazyOne_srcset_only _ _ _ (by decide) (by decide) (by decide),
      fixLazyOne_srcset_only _ _ _ (by decide) (by decide) (by decide)]
    exact hX1o
  -- the placeholder check never fires: data-src and data-original are gone
  have hfinal : fixLazyImgAttrs A = lazyAttrs.foldl fixLazyOne A := by
    simp only [fixLazyImgAttrs]
    rw [hfsrc]
    simp only [hasAttr, hfd, hfo, Option.isSome_none, Bool.or_self]
    split
    · rfl
    · rfl
  rw [hfinal]
  exact ⟨hfsrc, hfd⟩

/-- A resolver that absolutizes `/real.jpg` against the example base and
declines everything else (a `data:` URI is returned unchanged by
`resolveUrl`). -/
def c7Resolve : String → String → Option String :=
  fun u _ => if u = "/real.jpg" then some "https://example.com/real.jpg"
    else none

def c7Attrs : List (String × String) :=
  [("src", "data:image/gif;base64,R0lGOD"), ("data-src", "/real.jpg")]

def c7O : Oracles where
  parse := fun _ => []
  xeval := fun _ _ => .ok []
  jsonParse := fun _ => .error "bad json"
  readability := fun _ => .ok none
  resolveUrl := c7Resolve
  purify := fun cs => .ok cs
  formatDate := fun _ => .error "bad date"

def c7St : ExtractionState :=
  { content := some (DNode.elem 1 "div" []
      [DNode.elem 2 "img" c7Attrs []]) }

/-- Counterexample to C7 as stated: after the full post-processing pipeline
the image's `src` is the `data-src` value `/real.jpg` **verbatim**, even
though the resolver would have absolutized it to
`https://example.com/real.jpg` — because `makeUrlsAbsolute` runs before
`fixLazyImages`, the promoted value is never resolved against the base
URL. -/
theorem c7_counterexample :
    (postProcess c7O { enableXss := false } "https://example.com/a"
        c7St).content
      = some (DNode.elem 1 "div" []
          [DNode.elem 2 "img" [("src", "/real.jpg")] []]) ∧
    c7O.resolveUrl "/real.jpg" "https://example.com/a"
      = some "https://example.com/real.jpg" ∧
    ("/real.jpg" : String) ≠ "https://example.com/real.jpg" :=
  ⟨rfl, rfl, by decide⟩

/-- Witness instantiating the C7 theorem at the specimen image. -/
theorem c7_witness :
    getAttr c7Attrs "data-src" = some "/real.jpg" ∧
    getAttr c7Attrs "data-lazy-src" = none ∧
    getAttr c7Attrs "data-original" = none ∧
    getAttr c7Attrs "loading-src" = none ∧
    (getAttr (fixLazyImgAttrs
        (absolutizeAttrs c7Resolve "https://example.com/a" "img" c7Attrs))
      "src" = some "/real.jpg" ∧
     getAttr (fixLazyImgAttrs
        (absolutizeAttrs c7Resolve "https://example.com/a" "img" c7Attrs))
      "data-src" = none) :=
  ⟨rfl, rfl, rfl, rfl,
   c7_lazy_image_promoted_verbatim c7Resolve "https://example.com/a" c7Attrs
     "/real.jpg" rfl (by decide) rfl rfl rfl⟩

/-- A pending `null`/empty next-page URL ends the assembly loop at once. -/
lemma processMultiPageLoop_none (world : String → FetchOutcome)
    (resolve : String → String → Option String) (baseUrl : String)
    (limit fuel : Nat) (count : Nat) (seen : List String)
    (pages : List DNode) (fetched : List String) :
    processMultiPageLoop world resolve baseUrl limit fuel none count seen
      pages fetched = (pages, fetched, count) := by
  cases fuel with
  | zero => rfl
  | succ f =>
    simp only [processMultiPageLoop]
    rw [if_neg]
    intro h
    simp [jsTruthy] at h

/-- One successful iteration of the assembly loop. -/
lemma processMultiPageLoop_step (world : String → FetchOutcome)
    (resolve : String → String → Option String) (baseUrl : String)
    (limit fuel : Nat) (nextUrl : Option String) (count : Nat)
    (seen : List String) (pages : List DNode) (fetched : List String)
    (absUrl : String) (res : PageExtract)
    (hc : jsTruthy nextUrl = true) (hcount : count < limit)
    (habs : makeAbsoluteUrl resolve (nextUrl.getD "") baseUrl = some absUrl)
    (hseen : absUrl ∉ seen)
    (hworld : world absUrl = .page true res) :
    processMultiPageLoop world resolve baseUrl limit (fuel + 1) nextUrl count
      seen pages fetched
      = processMultiPageLoop world resolve baseUrl limit fuel res.nextPageUrl
          (count + 1) (absUrl :: seen)
          (pages ++ ((firstElementChild res.html).elim [] (fun e => [e])))
          (fetched ++ [absUrl]) := by
  simp only [processMultiPageLoop, habs, hworld]
  rw [if_pos ⟨hc, hcount⟩, if_neg hseen]
  simp

/-- Loop invariant of the assembler: the fetch log only grows by pairwise
distinct URLs none of which was already visited, and the page counter
never passes `max count limit`. -/
lemma processMultiPageLoop_guard (world : String → FetchOutcome)
    (resolve : String → String → Option String) (baseUrl : String)
    (limit : Nat) :
    ∀ (fuel : Nat) (nextUrl : Option String) (count : Nat)
      (seen : List String) (pages : List DNode) (fetched : List String),
    ∃ new : List String,
      (processMultiPageLoop world resolve baseUrl limit fuel nextUrl count
        seen pages fetched).2.1 = fetched ++ new ∧
      new.Nodup ∧ (∀ u ∈ new, u ∉ seen) ∧
      (processMultiPageLoop world resolve baseUrl limit fuel nextUrl count
        seen pages fetched).2.2 ≤ max count limit := by
  intro fuel
  induction fuel with
  | zero =>
    intro nextUrl count seen pages fetched
    exact ⟨[], by simp [processMultiPageLoop], by simp, by simp,
      Nat.le_max_left _ _⟩
  | succ f ih =>
    intro nextUrl count seen pages fetched
    simp only [processMultiPageLoop]
    split
    · rename_i hc
      split
      · exact ⟨[], by simp, by simp, by simp, Nat.le_max_left _ _⟩
      · rename_i absUrl habs
        split
        · exact ⟨[], by simp, by simp, by simp, Nat.le_max_left _ _⟩
        · rename_i hnin
          split
          · exact ⟨[absUrl], by simp, by simp, by simp [hnin],
              Nat.le_max_left _ _⟩
          · exact ⟨[absUrl], by simp, by simp, by simp [hnin],
              Nat.le_max_left _ _⟩
          · rename_i success res hw
            split
            · obtain ⟨new, h1, h2, h3, h4⟩ :=
                ih res.nextPageUrl (count + 1) (absUrl :: seen)
                  (pages ++
                    ((firstElementChild res.html).elim [] (fun e => [e])))
                  (fetched ++ [absUrl])
              refine ⟨absUrl :: new, ?_, ?_, ?_, ?_⟩
              · simpa using h1
              · exact List.nodup_cons.2
                  ⟨fun hmem => (h3 absUrl hmem) (List.mem_cons_self _ _), h2⟩
              · intro u hu
                rcases List.mem_cons.1 hu with h | h
                · exact h ▸ hnin
                · exact fun hs => (h3 u h) (List.mem_cons_of_mem _ hs)
              · refine h4.trans ?_
                rw [Nat.max_eq_right (Nat.succ_le_of_lt hc.2)]
                exact Nat.le_max_right _ _
            · exact ⟨[absUrl], by simp, by simp, by simp [hnin],
                Nat.le_max_left _ _⟩
    · exact ⟨[], by simp, by simp, by simp, Nat.le_max_left _ _⟩

/-- The fetch log and the final page counter of `processMultiPage` are
those of its loop. -/
lemma processMultiPage_snd (world : String → FetchOutcome)
    (resolve : String → String → Option String) (limit : Nat)
    (fp : PageExtract) (baseUrl : String) :
    (processMultiPage world resolve limit fp baseUrl).2
      = (processMultiPageLoop world resolve baseUrl limit (limit + 1)
          fp.nextPageUrl 1 [baseUrl]
          ((firstElementChild fp.html).elim [] (fun e => [e])) []).2 := by
  simp only [processMultiPage]
  rcases hE : processMultiPageLoop world resolve baseUrl limit (limit + 1)
      fp.nextPageUrl 1 [baseUrl]
      ((firstElementChild fp.html).elim [] (fun e => [e])) [] with ⟨p, f, c⟩
  simp only [hE]
  split <;> rfl

/-- C2 (amended): over a 3-page chain whose pages are correctly linked by
`nextPageLink` rules and whose extracted bodies each have a single
top-level element, multi-page assembly yields a single result whose body
is those three elements in order (pageCount 3, each continuation URL
fetched exactly once) — in general only the **first top-level element** of
each page's content is kept; and for every world, resolver, first page and
starting URL, the fetch log repeats no URL and never revisits the starting
URL (cycle guard, visited set seeded with the start), and the final page
counter never passes the configured limit. -/
theorem c2_multipage_assembly
    (world : String → FetchOutcome)
    (resolve : String → String → Option String)
    (limit : Nat) (baseUrl : String)
    (e1 e2 e3 : DNode) (u1 u2 a1 a2 : String)
    (he1 : e1.isElem = true) (he2 : e2.isElem = true) (he3 : e3.isElem = true)
    (hu1 : u1 ≠ "") (hu2 : u2 ≠ "")
    (ha1 : makeAbsoluteUrl resolve u1 baseUrl = some a1)
    (ha2 : makeAbsoluteUrl resolve u2 baseUrl = some a2)
    (hb1 : a1 ≠ baseUrl) (hb2 : a2 ≠ baseUrl) (h12 : a2 ≠ a1)
    (hw1 : world a1 = .page true ⟨[e2], some u2⟩)
    (hw2 : world a2 = .page true ⟨[e3], none⟩)
    (hlim : 3 ≤ limit) :
    processMultiPage world resolve limit ⟨[e1], some u1⟩ baseUrl
      = (some ⟨[e1, e2, e3], some u1⟩, [a1, a2], 3) ∧
    ∀ (world2 : String → FetchOutcome)
      (resolve2 : String → String → Option String)
      (fp : PageExtract) (base2 : String),
      ((processMultiPage world2 resolve2 limit fp base2).2.1).Nodup ∧
      base2 ∉ (processMultiPage world2 resolve2 limit fp base2).2.1 ∧
      (processMultiPage world2 resolve2 limit fp base2).2.2 ≤ max 1 limit := by
  constructor
  · obtain ⟨l, rfl⟩ : ∃ l, limit = l + 3 := ⟨limit - 3, by omega⟩
    have hstep1 := processMultiPageLoop_step world resolve baseUrl (l + 3)
      (l + 3) (some u1) 1 [baseUrl] [e1] [] a1 ⟨[e2], some u2⟩
      (by simp [jsTruthy, hu1]) (by omega) (by simpa using ha1)
      (by simp [hb1]) hw1
    have hstep2 := processMultiPageLoop_step world resolve baseUrl (l + 3)
      (l + 2) (some u2) 2 [a1, baseUrl] [e1, e2] [a1] a2 ⟨[e3], none⟩
      (by simp [jsTruthy, hu2]) (by omega) (by simpa using ha2)
      (by simp [hb2, h12]) hw2
    have hloop : processMultiPageLoop world resolve baseUrl (l + 3)
        (l + 3 + 1) (some u1) 1 [baseUrl] [e1] []
        = ([e1, e2, e3], [a1, a2], 3) := by
      rw [hstep1]
      simp only [firstElementChild, List.find?, he2, Option.elim]
      norm_num
      simp only [firstElementChild, List.find?, he3, Option.elim] at hstep2
      norm_num at hstep2
      rw [hstep2]
      rw [processMultiPageLoop_none]
    simp only [processMultiPage, firstElementChild, List.find?, he1]
    rw [show ((some e1).elim [] (fun e => [e]) : List DNode) = [e1] by rfl]
    rw [hloop]
    rfl
  · intro world2 resolve2 fp base2
    obtain ⟨new, h1, h2, h3, h4⟩ :=
      processMultiPageLoop_guard world2 resolve2 base2 limit (limit + 1)
        fp.nextPageUrl 1 [base2]
        ((firstElementChild fp.html).elim [] (fun e => [e])) []
    have hsnd := processMultiPage_snd world2 resolve2 limit fp base2
    have hfst : (processMultiPage world2 resolve2 limit fp base2).2.1
        = new := by rw [hsnd]; simpa using h1
    refine ⟨?_, ?_, ?_⟩
    · rw [hfst]; exact h2
    · rw [hfst]
      intro hmem
      exact (h3 base2 hmem) (by simp)
    · have : (processMultiPage world2 resolve2 limit fp base2).2.2
          = (processMultiPageLoop world2 resolve2 base2 limit (limit + 1)
              fp.nextPageUrl 1 [base2]
              ((firstElementChild fp.html).elim [] (fun e => [e])) []).2.2 := by
        rw [hsnd]
      rw [this]
      exact h4

def c2E1 : DNode := DNode.elem 11 "div" [] [DNode.text "p1"]

def c2E1b : DNode := DNode.elem 14 "p" [] [DNode.text "p1b"]

def c2E2 : DNode := DNode.elem 12 "p" [] [DNode.text "p2"]

def c2E3 : DNode := DNode.elem 13 "p" [] [DNode.text "p3"]

def c2Resolve : String → String → Option String :=
  fun u b =>
    if b = "http://s/1" ∧ u = "/2" then some "http://s/2"
    else if b = "http://s/1" ∧ u = "/3" then some "http://s/3"
    else none

/-- A 3-page world: page 2 links on to page 3, page 3 ends the chain. -/
def c2World : String → FetchOutcome :=
  fun u =>
    if u = "http://s/2" then .page true ⟨[c2E2], some "/3"⟩
    else if u = "http://s/3" then .page true ⟨[c2E3], none⟩
    else .fetchError

/-- Counterexample to C2 as stated: a correctly linked 3-page chain whose
first page has two top-level elements.  Assembly still reports three
pages, but the combined body keeps only `container.firstElementChild` of
the first page, so the `p1b` element's content is silently dropped. -/
theorem c2_counterexample :
    processMultiPage c2World c2Resolve 10 ⟨[c2E1, c2E1b], some "/2"⟩
        "http://s/1"
      = (some ⟨[c2E1, c2E2, c2E3], some "/2"⟩,
         ["http://s/2", "http://s/3"], 3) ∧
    listText [c2E1, c2E1b] = "p1p1b" ∧
    listText [c2E1, c2E2, c2E3] = "p1p2p3" ∧
    hasSubChars ("p1b".data) (listText [c2E1, c2E2, c2E3]).data = false :=
  ⟨rfl, rfl, rfl, by decide⟩

/-- Witness instantiating the C2 theorem on a concrete 3-page chain. -/
theorem c2_witness :
    makeAbsoluteUrl c2Resolve "/2" "http://s/1" = some "http://s/2" ∧
    makeAbsoluteUrl c2Resolve "/3" "http://s/1" = some "http://s/3" ∧
    c2World "http://s/2" = .page true ⟨[c2E2], some "/3"⟩ ∧
    c2World "http://s/3" = .page true ⟨[c2E3], none⟩ ∧
    processMultiPage c2World c2Resolve 10 ⟨[c2E1], some "/2"⟩ "http://s/1"
      = (some ⟨[c2E1, c2E2, c2E3], some "/2"⟩,
         ["http://s/2", "http://s/3"], 3) :=
  ⟨rfl, rfl, rfl, rfl,
   (c2_multipage_assembly c2World c2Resolve 10 "http://s/1" c2E1 c2E2 c2E3
     "/2" "/3" "http://s/2" "http://s/3" rfl rfl rfl (by decide) (by decide)
     rfl rfl (by decide) (by decide) (by decide) rfl rfl (by decide)).1⟩

end GrabyTs
